import Mathlib

/-!
# Verification of the response-extraction / merge / persistence logic of `ai-cms`

Shallow embedding of the three agent scripts
(`src/agents/sitemap_agent.py`, `src/agents/brand_guide_agent.py`,
`src/agents/code_action_agent.py`).  Strings are modelled as `List Char`,
Python `dict`s as insertion-ordered association lists, JSON documents as the
inductive `JValue` below.  The external LLM call is modelled as a parameter
(`ApiResult`): either a returned text or a raised exception.  File writes are
modelled by recording the written documents/files in the result.
-/

namespace AiCms

/-! ## Python string primitives

Models of the `str` methods used by the agents: `find`, `rfind` (for a single
character and for a substring), slicing, `in` (substring containment),
`strip`, `lower`, `replace`, `split`, `capitalize`.  Indices are `Int` with
Python's `-1`-on-failure convention; slices clamp like Python slices.
-/

/-- Characters treated as whitespace by Python's `str.strip` (ASCII part). -/
def isPyWs (c : Char) : Bool :=
  c = ' ' || c = '\t' || c = '\n' || c = '\x0d' || c = '\x0b' || c = '\x0c'

/-- First index of character `c`, or `none`. -/
def findCharAux (c : Char) : List Char → Option Nat
  | [] => none
  | x :: xs => if x = c then some 0 else (findCharAux c xs).map (· + 1)

/-- Python `s.find(c)` for a single-character needle: index or `-1`. -/
def pyFindChar (c : Char) (s : List Char) : Int :=
  match findCharAux c s with
  | some i => (i : Int)
  | none => -1

/-- Last index of character `c`, or `none`. -/
def rfindCharAux (c : Char) : List Char → Option Nat
  | [] => none
  | x :: xs =>
    match rfindCharAux c xs with
    | some i => some (i + 1)
    | none => if x = c then some 0 else none

/-- Python `s.rfind(c)` for a single-character needle: index or `-1`. -/
def pyRfindChar (c : Char) (s : List Char) : Int :=
  match rfindCharAux c s with
  | some i => (i : Int)
  | none => -1

/-- First index at which `pat` occurs as a contiguous sublist, or `none`. -/
def findSubAux (pat : List Char) : List Char → Option Nat
  | [] => if pat = [] then some 0 else none
  | x :: xs =>
    if pat.isPrefixOf (x :: xs) then some 0
    else (findSubAux pat xs).map (· + 1)

/-- Python `s.find(pat)`: index of first occurrence or `-1`. -/
def pyFindSub (pat s : List Char) : Int :=
  match findSubAux pat s with
  | some i => (i : Int)
  | none => -1

/-- Last index at which `pat` occurs as a contiguous sublist, or `none`. -/
def rfindSubAux (pat : List Char) : List Char → Option Nat
  | [] => if pat = [] then some 0 else none
  | x :: xs =>
    match rfindSubAux pat xs with
    | some i => some (i + 1)
    | none => if pat.isPrefixOf (x :: xs) then some 0 else none

/-- Python `s.rfind(pat)`: index of last occurrence or `-1`. -/
def pyRfindSub (pat s : List Char) : Int :=
  match rfindSubAux pat s with
  | some i => (i : Int)
  | none => -1

/-- Python `pat in s` (substring containment). -/
def pyContainsSub (pat s : List Char) : Bool :=
  (findSubAux pat s).isSome

/-- Normalize a Python slice bound to `[0, length]`. -/
def sliceNorm (len : Nat) (i : Int) : Nat :=
  if i < 0 then len - (-i).toNat else min i.toNat len

/-- Python `s[a:b]` with clamping (negative indices count from the end). -/
def pySlice (s : List Char) (a b : Int) : List Char :=
  (s.take (sliceNorm s.length b)).drop (sliceNorm s.length a)

/-- Python `s.find(pat, start)` with a nonnegative-normalized start. -/
def pyFindSubFrom (pat s : List Char) (start : Int) : Int :=
  let st := sliceNorm s.length start
  match findSubAux pat (s.drop st) with
  | some i => (i + st : Nat)
  | none => -1

/-- Python `s.strip()` (whitespace from both ends). -/
def pyStrip (s : List Char) : List Char :=
  ((s.dropWhile isPyWs).reverse.dropWhile isPyWs).reverse

/-! ## JSON document model

`JValue` is the in-memory document value: Python dicts become
insertion-ordered association lists, lists become `List`.  Restriction of the
model: JSON numbers are embedded as integers (`Int`); the agents' documents
(sitemaps, brand guides) contain no fractional numbers, and Python floats are
outside this embedding.
-/

inductive JValue where
  | jnull : JValue
  | jbool : Bool → JValue
  | jnum : Int → JValue
  | jstr : List Char → JValue
  | jarr : List JValue → JValue
  | jobj : List (List Char × JValue) → JValue
deriving Repr

/-- Shorthand for embedding a Lean string literal as a JSON string. -/
def js (s : String) : JValue := JValue.jstr s.data

/-! ### A model of Python's `json.loads`

Recursive-descent parser over `List Char` with explicit fuel (the
entry point supplies `length + 1`, which is always sufficient: every
recursive call first consumes at least one character).  Mirrors the strict
default behaviour of `json.loads`: leading/trailing whitespace allowed,
exactly one top-level value, control characters forbidden inside strings,
`\uXXXX` escapes with surrogate pairs decoded.  Deviations from CPython,
irrelevant to the agents' documents: fractional/exponent number literals and
lone surrogates are rejected rather than producing floats / surrogate code
points. -/

/-- JSON inter-token whitespace. -/
def isJsonWs (c : Char) : Bool :=
  c = ' ' || c = '\t' || c = '\n' || c = '\x0d'

def skipWs : List Char → List Char
  | [] => []
  | c :: cs => if isJsonWs c then skipWs cs else c :: cs

/-- Decode one hexadecimal digit. -/
def parseHexDigit (c : Char) : Option Nat :=
  if '0' ≤ c ∧ c ≤ '9' then some (c.toNat - '0'.toNat)
  else if 'a' ≤ c ∧ c ≤ 'f' then some (c.toNat - 'a'.toNat + 10)
  else if 'A' ≤ c ∧ c ≤ 'F' then some (c.toNat - 'A'.toNat + 10)
  else none

/-- Decode four hexadecimal digits. -/
def parseHex4 (a b c d : Char) : Option Nat :=
  match parseHexDigit a, parseHexDigit b, parseHexDigit c, parseHexDigit d with
  | some ha, some hb, some hc, some hd => some (((ha * 16 + hb) * 16 + hc) * 16 + hd)
  | _, _, _, _ => none

/-- Decode the continuation of a `\uXXXX` high surrogate: a `\uYYYY` low
surrogate must follow; yields the combined supplementary character. -/
def parseLowSurrogate (hi : Nat) : List Char → Option (Char × List Char)
  | s1 :: s2 :: a :: b :: c :: d :: r4 =>
    if s1 = '\\' ∧ s2 = 'u' then
      match parseHex4 a b c d with
      | none => none
      | some lo =>
        if 0xDC00 ≤ lo ∧ lo < 0xE000 then
          some (Char.ofNat (0x10000 + (hi - 0xD800) * 0x400 + (lo - 0xDC00)), r4)
        else none
    else none
  | _ => none

/-- Decode a `\uXXXX` escape (with surrogate-pair handling); lone surrogates
are rejected (CPython would produce a surrogate code point, which is not a
Unicode scalar value and is never emitted by the serializer). -/
def parseU : List Char → Option (Char × List Char)
  | a :: b :: c :: d :: r3 =>
    match parseHex4 a b c d with
    | none => none
    | some n =>
      if 0xD800 ≤ n ∧ n < 0xDC00 then parseLowSurrogate n r3
      else if 0xDC00 ≤ n ∧ n < 0xE000 then none
      else some (Char.ofNat n, r3)
  | _ => none

/-- Decode one backslash escape (the input starts after the backslash). -/
def parseEscape (r : List Char) : Option (Char × List Char) :=
  match r with
  | [] => none
  | e :: r2 =>
    if e = '"' then some ('"', r2)
    else if e = '\\' then some ('\\', r2)
    else if e = '/' then some ('/', r2)
    else if e = 'n' then some ('\n', r2)
    else if e = 't' then some ('\t', r2)
    else if e = 'r' then some ('\x0d', r2)
    else if e = 'b' then some ('\x08', r2)
    else if e = 'f' then some ('\x0c', r2)
    else if e = 'u' then parseU r2
    else none

/-- Parse the body of a JSON string, after the opening quote; returns the
decoded characters and the input remaining after the closing quote.  Fuelled;
each step consumes at least one input character, so `length + 1` fuel (what
`parseStr` supplies) never runs out. -/
def parseStrBody : Nat → List Char → Option (List Char × List Char)
  | 0, _ => none
  | fuel + 1, cs =>
    match cs with
    | [] => none
    | c :: r =>
      if c = '"' then some ([], r)
      else if c = '\\' then
        match parseEscape r with
        | none => none
        | some p => (parseStrBody fuel p.2).map (fun q => (p.1 :: q.1, q.2))
      else if c.toNat < 0x20 then none
      else (parseStrBody fuel r).map (fun q => (c :: q.1, q.2))

def parseStr (cs : List Char) : Option (List Char × List Char) :=
  parseStrBody (cs.length + 1) cs

def isAsciiDigit (c : Char) : Bool := 48 ≤ c.toNat && c.toNat ≤ 57

/-- Numeric value of a list of decimal digit characters (most significant first). -/
def digitsToNat (ds : List Char) : Nat :=
  ds.foldl (fun a c => a * 10 + (c.toNat - '0'.toNat)) 0

/-- Parse an unsigned JSON integer literal at the head of the input. -/
def parseNatLit (cs : List Char) : Option (Nat × List Char) :=
  let ds := cs.takeWhile isAsciiDigit
  let rest := cs.dropWhile isAsciiDigit
  if ds = [] then none
  else if ds.head? = some '0' ∧ ds.length ≠ 1 then none   -- no leading zeros
  else
    match rest with
    | [] => some (digitsToNat ds, rest)
    | c :: _ =>
      -- fractional and exponent literals are outside the (integer) model
      if c = '.' ∨ c = 'e' ∨ c = 'E' then none
      else some (digitsToNat ds, rest)

/-- Parse a JSON (integer) number literal at the head of the input. -/
def parseNumLit (cs : List Char) : Option (Int × List Char) :=
  match cs with
  | [] => none
  | c :: r =>
    if c = '-' then (parseNatLit r).map (fun p => (-(p.1 : Int), p.2))
    else (parseNatLit (c :: r)).map (fun p => ((p.1 : Int), p.2))

/-- `lit.isPrefixOf cs` and drop it. -/
def expectLit (lit cs : List Char) : Option (List Char) :=
  if lit.isPrefixOf cs then some (cs.drop lit.length) else none

mutual

/-- Parse one JSON value (leading whitespace allowed); returns the value and
the remaining input. -/
def parseValue : Nat → List Char → Option (JValue × List Char)
  | 0, _ => none
  | fuel + 1, cs =>
    match skipWs cs with
    | [] => none
    | c :: r =>
      if c = '\x7b' then
        match skipWs r with
        | [] => none
        | c1 :: r1 =>
          if c1 = '\x7d' then some (JValue.jobj [], r1)
          else (parseMembers fuel (c1 :: r1)).map (fun p => (JValue.jobj p.1, p.2))
      else if c = '[' then
        match skipWs r with
        | [] => none
        | c1 :: r1 =>
          if c1 = ']' then some (JValue.jarr [], r1)
          else (parseElems fuel (c1 :: r1)).map (fun p => (JValue.jarr p.1, p.2))
      else if c = '"' then
        (parseStr r).map (fun p => (JValue.jstr p.1, p.2))
      else if c = 't' then
        (expectLit "rue".data r).map (fun r2 => (JValue.jbool true, r2))
      else if c = 'f' then
        (expectLit "alse".data r).map (fun r2 => (JValue.jbool false, r2))
      else if c = 'n' then
        (expectLit "ull".data r).map (fun r2 => (JValue.jnull, r2))
      else if c = '-' ∨ isAsciiDigit c then
        (parseNumLit (c :: r)).map (fun p => (JValue.jnum p.1, p.2))
      else none

/-- Parse the members of a JSON object, positioned at the first key's quote;
consumes the closing brace. -/
def parseMembers : Nat → List Char → Option (List (List Char × JValue) × List Char)
  | 0, _ => none
  | fuel + 1, cs =>
    match cs with
    | [] => none
    | c :: r =>
      if c = '"' then
        match parseStr r with
        | none => none
        | some p =>
          match skipWs p.2 with
          | [] => none
          | c2 :: r2 =>
            if c2 = ':' then
              match parseValue fuel r2 with
              | none => none
              | some q =>
                match skipWs q.2 with
                | [] => none
                | c4 :: r4 =>
                  if c4 = ',' then
                    (parseMembers fuel (skipWs r4)).map (fun w => ((p.1, q.1) :: w.1, w.2))
                  else if c4 = '\x7d' then some ([(p.1, q.1)], r4)
                  else none
            else none
      else none

/-- Parse the elements of a JSON array, positioned at the first element;
consumes the closing bracket. -/
def parseElems : Nat → List Char → Option (List JValue × List Char)
  | 0, _ => none
  | fuel + 1, cs =>
    match parseValue fuel cs with
    | none => none
    | some q =>
      match skipWs q.2 with
      | [] => none
      | c :: r2 =>
        if c = ',' then
          (parseElems fuel (skipWs r2)).map (fun w => (q.1 :: w.1, w.2))
        else if c = ']' then some ([q.1], r2)
        else none

end

/-- Model of Python `json.loads`: parse one value, allow trailing whitespace
only.  The fuel `length + 1` never runs out on any accepted input because
every level of recursion consumes at least one character first. -/
def jsonLoads (cs : List Char) : Option JValue :=
  match parseValue (cs.length + 1) cs with
  | some (v, rest) => if skipWs rest = [] then some v else none
  | none => none

/-! ### A model of Python's `json.dump(..., indent=2)` -/

/-- One decimal digit character. -/
def toDigitChar (n : Nat) : Char := Char.ofNat ('0'.toNat + n)

/-- Decimal digits of `n`, most significant first (fuelled; `n + 1` is enough
fuel since `n / 10 < n` for `n ≥ 10`). -/
def natDigitsAux : Nat → Nat → List Char
  | 0, _ => []
  | fuel + 1, n =>
    if n < 10 then [toDigitChar n]
    else natDigitsAux fuel (n / 10) ++ [toDigitChar (n % 10)]

def natDigits (n : Nat) : List Char := natDigitsAux (n + 1) n

/-- Decimal rendering of an integer, as Python `repr` of an `int`. -/
def serInt (i : Int) : List Char :=
  if i < 0 then '-' :: natDigits i.natAbs else natDigits i.toNat

/-- One lowercase hexadecimal digit. -/
def toHexDigitChar (n : Nat) : Char :=
  if n < 10 then Char.ofNat ('0'.toNat + n) else Char.ofNat ('a'.toNat + n - 10)

/-- Four lowercase hexadecimal digits of `n < 0x10000`. -/
def toHex4 (n : Nat) : List Char :=
  [toHexDigitChar (n / 4096 % 16), toHexDigitChar (n / 256 % 16),
   toHexDigitChar (n / 16 % 16), toHexDigitChar (n % 16)]

/-- Escape one character as Python's JSON encoder does with `ensure_ascii`
(short escapes, `\uXXXX` for other control and non-ASCII characters,
surrogate pairs beyond the BMP). -/
def escapeChar (c : Char) : List Char :=
  if c = '"' then ['\\', '"']
  else if c = '\\' then ['\\', '\\']
  else if c = '\n' then ['\\', 'n']
  else if c = '\t' then ['\\', 't']
  else if c = '\x0d' then ['\\', 'r']
  else if c = '\x08' then ['\\', 'b']
  else if c = '\x0c' then ['\\', 'f']
  else if c.toNat < 0x20 then '\\' :: 'u' :: toHex4 c.toNat
  else if c.toNat < 0x7F then [c]
  else if c.toNat < 0x10000 then '\\' :: 'u' :: toHex4 c.toNat
  else
    '\\' :: 'u' :: toHex4 (0xD800 + (c.toNat - 0x10000) / 0x400) ++
    '\\' :: 'u' :: toHex4 (0xDC00 + (c.toNat - 0x10000) % 0x400)

/-- Escaped body of a JSON string. -/
def serStrBody (s : List Char) : List Char :=
  s.foldr (fun c acc => escapeChar c ++ acc) []

/-- A serialized JSON string with its quotes. -/
def serStr (s : List Char) : List Char := '"' :: serStrBody s ++ ['"']

/-- `n` spaces. -/
def spaces (n : Nat) : List Char := List.replicate n ' '

mutual

/-- Serialize a value; `ind` is the indentation column of the value's closing
bracket, exactly as `json.dump(..., indent=2)` lays it out. -/
def serValue (ind : Nat) : JValue → List Char
  | JValue.jnull => "null".data
  | JValue.jbool b => if b then "true".data else "false".data
  | JValue.jnum i => serInt i
  | JValue.jstr s => serStr s
  | JValue.jarr [] => ['[', ']']
  | JValue.jarr (v :: vs) =>
    '[' :: '\n' :: (spaces (ind + 2) ++ serElemsTail (ind + 2) (v :: vs) ++
      '\n' :: (spaces ind ++ [']']))
  | JValue.jobj [] => ['\x7b', '\x7d']
  | JValue.jobj (kv :: kvs) =>
    '\x7b' :: '\n' :: (spaces (ind + 2) ++ serMembersTail (ind + 2) (kv :: kvs) ++
      '\n' :: (spaces ind ++ ['\x7d']))

/-- Serialize array elements, separated by `",\n" ++ indent`; the first
element's indent is emitted by the caller. -/
def serElemsTail (ind : Nat) : List JValue → List Char
  | [] => []
  | v :: vs =>
    serValue ind v ++ (match vs with
      | [] => []
      | _ :: _ => ',' :: '\n' :: (spaces ind ++ serElemsTail ind vs))

/-- Serialize object members (`"key": value`), separated by `",\n" ++ indent`. -/
def serMembersTail (ind : Nat) : List (List Char × JValue) → List Char
  | [] => []
  | (k, v) :: kvs =>
    serStr k ++ ':' :: ' ' :: (serValue ind v ++ (match kvs with
      | [] => []
      | _ :: _ => ',' :: '\n' :: (spaces ind ++ serMembersTail ind kvs)))

end

/-- Model of `json.dump(doc, f, indent=2)`: the exact text written to the file. -/
def jsonDumps (v : JValue) : List Char := serValue 0 v

/-! ## Association-list operations (Python `dict` reads/writes)

Python dicts are insertion-ordered with unique keys; the embedding uses
association lists, reading the first matching key and updating in place
(appending at the end when the key is new, as a dict insertion does). -/

/-- `d.get(k)` / `d[k]`: value at the first occurrence of key `k`. -/
def jGet (kvs : List (List Char × JValue)) (k : List Char) : Option JValue :=
  match kvs with
  | [] => none
  | (k', v) :: rest => if k' = k then some v else jGet rest k

/-- Python `k in d`. -/
def hasKey (kvs : List (List Char × JValue)) (k : List Char) : Bool :=
  (jGet kvs k).isSome

/-- Python `d[k] = v`: replace the value at `k` in place, or insert at the end. -/
def setKey (kvs : List (List Char × JValue)) (k : List Char) (v : JValue) :
    List (List Char × JValue) :=
  match kvs with
  | [] => [(k, v)]
  | (k', v') :: rest => if k' = k then (k, v) :: rest else (k', v') :: setKey rest k v

/-! ## The shared JSON extraction step

`sitemap_agent.py` lines 155-167 and `brand_guide_agent.py` lines 99-104:
locate the first `{` and the last `}`, slice, `json.loads` the slice.
Returns `none` when the braces are missing/inverted or when parsing raises
(the callers then substitute their default document). -/

def extract_json (response_text : List Char) : Option JValue :=
  let json_start : Int := pyFindChar '\x7b' response_text
  let json_end : Int := pyRfindChar '\x7d' response_text + 1
  if 0 ≤ json_start ∧ json_start < json_end then
    jsonLoads (pySlice response_text json_start json_end)
  else
    none

/-! ## Default documents -/

/-- `SitemapAgent._create_default_sitemap` (sitemap_agent.py lines 261-283). -/
def default_sitemap (business_name : List Char) : JValue :=
  JValue.jobj
    [("Home".data, JValue.jarr
        [JValue.jobj [("type".data, js "hero"),
                      ("description".data, JValue.jstr ("Welcome to ".data ++ business_name))],
         JValue.jobj [("type".data, js "features"),
                      ("description".data, js "Highlight key features or services")]]),
     ("About".data, JValue.jarr
        [JValue.jobj [("type".data, js "content"),
                      ("description".data, js "About the company")]]),
     ("Contact".data, JValue.jarr
        [JValue.jobj [("type".data, js "contact_form"),
                      ("description".data, js "Contact form and information")]])]

/-- `BrandGuideAgent._create_default_brand_guide` (brand_guide_agent.py lines
162-210); the `business_name` argument is unused by the source as well. -/
def default_brand_guide : JValue :=
  JValue.jobj
    [("colors".data, JValue.jobj
        [("primary".data, js "#3B82F6"),
         ("secondary".data, js "#10B981"),
         ("accent".data, js "#F59E0B"),
         ("background".data, js "#FFFFFF"),
         ("text".data, js "#1F2937")]),
     ("typography".data, JValue.jobj
        [("headings".data, js "Playfair Display, serif"),
         ("body".data, js "Inter, sans-serif")]),
     ("ui_style".data, js "Modern and clean"),
     ("components".data, JValue.jobj
        [("buttons".data, JValue.jobj
            [("primary".data, JValue.jobj
                [("background".data, js "#3B82F6"),
                 ("text".data, js "#FFFFFF"),
                 ("border_radius".data, js "0.375rem")]),
             ("secondary".data, JValue.jobj
                [("background".data, js "transparent"),
                 ("text".data, js "#3B82F6"),
                 ("border".data, js "1px solid #3B82F6"),
                 ("border_radius".data, js "0.375rem")])]),
         ("cards".data, JValue.jobj
            [("background".data, js "#FFFFFF"),
             ("border_radius".data, js "0.5rem"),
             ("shadow".data, js "0 4px 6px -1px rgba(0, 0, 0, 0.1)")]),
         ("forms".data, JValue.jobj
            [("input_border".data, js "1px solid #D1D5DB"),
             ("input_border_radius".data, js "0.375rem"),
             ("input_padding".data, js "0.5rem 0.75rem")])])]

/-! ## Color-preference application (the "merger")

`brand_guide_agent.py` lines 112-116:
```
if color_preferences and "colors" in brand_guide:
    for color_key, color_value in color_preferences.items():
        if color_key in brand_guide["colors"]:
            brand_guide["colors"][color_key] = color_value
```
Each preference key is written into `brand_guide["colors"]` only when it is
already present there; absent keys are skipped.  The model restricts
`brand_guide["colors"]` to mappings (for a non-mapping value the Python line
would raise or substring-test; the generated/default guides always carry a
mapping there). -/

/-- The inner loop over `color_preferences.items()` against a colors mapping. -/
def updateColors (colors : List (List Char × JValue))
    (prefs : List (List Char × List Char)) : List (List Char × JValue) :=
  prefs.foldl
    (fun acc kv => if hasKey acc kv.1 then setKey acc kv.1 (JValue.jstr kv.2) else acc)
    colors

/-- Lines 112-116 on the top-level key-value list of the brand guide. -/
def apply_color_preferences_kvs (kvs : List (List Char × JValue))
    (color_preferences : List (List Char × List Char)) : List (List Char × JValue) :=
  if color_preferences ≠ [] ∧ hasKey kvs "colors".data then
    match jGet kvs "colors".data with
    | some (JValue.jobj colors) =>
      setKey kvs "colors".data (JValue.jobj (updateColors colors color_preferences))
    | _ => kvs
  else kvs

/-- Lines 112-116 as a whole, acting on the extracted brand guide. -/
def apply_color_preferences (brand_guide : JValue)
    (color_preferences : List (List Char × List Char)) : JValue :=
  match brand_guide with
  | JValue.jobj kvs => JValue.jobj (apply_color_preferences_kvs kvs color_preferences)
  | other => other

/-- The colors mapping of a brand guide (for stating properties). -/
def guideColors (brand_guide : JValue) : List (List Char × JValue) :=
  match brand_guide with
  | JValue.jobj kvs =>
    match jGet kvs "colors".data with
    | some (JValue.jobj colors) => colors
    | _ => []
  | _ => []

/-! ## Generate operations with the external call as a parameter -/

/-- Outcome of `self.client.messages.create(...)`: the response text, or a
raised exception (network/auth/rate-limit). -/
inductive ApiResult where
  | ok : List Char → ApiResult
  | exn : ApiResult

/-- Result of one generate invocation: the in-memory document and the
documents handed to the persister (`json.dump` to the fixed-name file). -/
structure GenOutcome where
  doc : JValue
  saved : List JValue
deriving Repr

/-- `SitemapAgent.generate_sitemap` (sitemap_agent.py lines 83-184): the API
call sits in its own `try`; on exception the method returns the default
sitemap immediately (line 146), skipping `_save_sitemap`.  On a response, the
extraction step falls back to the default sitemap and the result is saved. -/
def generate_sitemap (api : ApiResult) (business_name : List Char) : GenOutcome :=
  match api with
  | ApiResult.exn => ⟨default_sitemap business_name, []⟩
  | ApiResult.ok response_text =>
    let sitemap := (extract_json response_text).getD (default_sitemap business_name)
    ⟨sitemap, [sitemap]⟩

/-- `BrandGuideAgent.generate_style_guide` (brand_guide_agent.py lines
42-121): the `messages.create` call at line 86 is *not* inside a `try`, so an
API exception propagates out of the method (`Except.error`).  On a response,
extraction falls back to the default guide, color preferences are applied,
and the result is saved. -/
def generate_style_guide (api : ApiResult) (business_name : List Char)
    (color_preferences : List (List Char × List Char)) : Except Unit GenOutcome :=
  match api with
  | ApiResult.exn => Except.error ()
  | ApiResult.ok response_text =>
    let brand_guide := (extract_json response_text).getD default_brand_guide
    let brand_guide := apply_color_preferences brand_guide color_preferences
    Except.ok ⟨brand_guide, [brand_guide]⟩

/-! ## Code-block extraction (`code_action_agent.py`)

Lines 259-273 (`_generate_page`), 319-333 (`_generate_layout`) and 525-540
(`_generate_component_code`) share this logic:
```
code_start = response_text.find("```") + 3
code_end = response_text.rfind("```")
if "typescript" in response_text[code_start:code_start+20]:
    code_start = response_text.find("\n", code_start) + 1
if code_start >= 3 and code_end > code_start:
    return response_text[code_start:code_end].strip()
```
`none` means the guard failed and the caller falls back (empty string for
components, the default page/layout template for pages/layouts). -/

def extract_code (response_text : List Char) : Option (List Char) :=
  let code_start0 : Int := pyFindSub "```".data response_text + 3
  let code_end : Int := pyRfindSub "```".data response_text
  let code_start : Int :=
    if pyContainsSub "typescript".data (pySlice response_text code_start0 (code_start0 + 20)) then
      pyFindSubFrom "\n".data response_text code_start0 + 1
    else code_start0
  if 3 ≤ code_start ∧ code_start < code_end then
    some (pyStrip (pySlice response_text code_start code_end))
  else
    none

/-- `_generate_component_code` after the API call: the extracted block, or
`""` when no fenced block is recognized (line 540). -/
def component_code_of (response_text : List Char) : List Char :=
  (extract_code response_text).getD []

/-! ## Default page synthesis (`_create_default_page`, lines 542-574) -/

/-- Python `str.lower` on one character (ASCII case mapping in this model;
CPython applies the full Unicode mapping, which agrees on ASCII). -/
def lowerChar (c : Char) : Char :=
  if 65 ≤ c.toNat ∧ c.toNat ≤ 90 then Char.ofNat (c.toNat + 32) else c

/-- Python `str.upper` on one character (ASCII case mapping in this model). -/
def upperChar (c : Char) : Char :=
  if 97 ≤ c.toNat ∧ c.toNat ≤ 122 then Char.ofNat (c.toNat - 32) else c

/-- Python `str.capitalize`: first character uppercased, the rest lowercased
(ASCII case mapping in this model). -/
def pyCapitalize (w : List Char) : List Char :=
  match w with
  | [] => []
  | c :: r => upperChar c :: r.map lowerChar

/-- Python `s.split(sep)` for a single-character separator (keeps empties). -/
def pySplitOn (sep : Char) (cs : List Char) : List (List Char) :=
  match cs with
  | [] => [[]]
  | c :: r =>
    let rest := pySplitOn sep r
    if c = sep then [] :: rest
    else
      match rest with
      | [] => [[c]]
      | w :: ws => (c :: w) :: ws

/-- `"".join(word.capitalize() for word in section_type.split("_"))`. -/
def pascalCase (section_type : List Char) : List Char :=
  ((pySplitOn '_' section_type).map pyCapitalize).flatten

/-- Join lines with `"\n"`. -/
def joinLines (ls : List (List Char)) : List Char :=
  match ls with
  | [] => []
  | [l] => l
  | l :: rest => l ++ '\n' :: joinLines rest

/-- `_create_default_page`: the fallback page source assembled from one
module-import line and one JSX line per `(section_type, component_name)` pair. -/
def create_default_page (page_name : List Char)
    (sections : List (List Char × List Char)) : List Char :=
  let imports := sections.map (fun s =>
    "import ".data ++ pascalCase s.1 ++ " from '@/components/sections/".data ++ s.1 ++ "';".data)
  let section_jsx := sections.map (fun s =>
    "      <".data ++ pascalCase s.1 ++ " />".data)
  "\nimport React from 'react';\n".data ++ joinLines imports ++
  "\n\nexport default function ".data ++ (page_name.filter (fun c => c ≠ ' ')) ++
  "Page() \x7b\n  return (\n    <div className=\"container mx-auto py-8\">\n      <h1 className=\"text-3xl font-bold mb-8\">".data ++
  page_name ++
  "</h1>\n".data ++ joinLines section_jsx ++
  "\n    </div>\n  );\n\x7d\n".data

/-- `_generate_page` after the API call (lines 259-276): the extracted code
block, or the default page when none is recognized. -/
def page_content_of (response_text page_name : List Char)
    (sections : List (List Char × List Char)) : List Char :=
  (extract_code response_text).getD (create_default_page page_name sections)

/-! ## Section synthesis (`_generate_section` / `_section_exists`, lines 169-212) -/

/-- `_section_exists`: `os.path.exists(sections_dir / f"{section_type}.tsx")`,
with the set of files in the sections directory passed in explicitly.  The
lookup is an exact, case-sensitive file-name match. -/
def section_exists (existing : List (List Char)) (section_type : List Char) : Bool :=
  (section_type ++ ".tsx".data) ∈ existing

/-- Result of `_generate_section`: the returned component name (`""` when
generation failed), the files written, and whether the external generation
call was made. -/
structure SectionResult where
  component : List Char
  written : List (List Char × List Char)
  calledApi : Bool
deriving Repr, DecidableEq

/-- `_generate_section` (lines 169-199).  `section_type`/`section_description`
are the results of `section.get("type", "content")` / `.get("description", "")`;
`api` is the outcome of the `_generate_component_code` API call, used only
when no pre-existing file short-circuits it. -/
def generate_section (existing : List (List Char))
    (section_type section_description : List Char) (api : List Char) : SectionResult :=
  if section_exists existing section_type then
    ⟨section_type, [], false⟩
  else
    let section_content := component_code_of api
    if section_content ≠ [] then
      ⟨section_type, [(section_type ++ ".tsx".data, section_content)], true⟩
    else
      ⟨[], [], true⟩

/-- The per-page section loop of `generate_website` (lines 72-76): run each
section in order, thread freshly written files into the visible directory
listing, and keep `(section["type"], component)` only when the component name
is non-empty. -/
def run_sections (existing : List (List Char)) :
    List ((List Char × List Char) × List Char) →
    (List (List Char) × List (List Char × List Char))
  | [] => (existing, [])
  | ((t, d), api) :: rest =>
    let r := generate_section existing t d api
    let existing' := existing ++ r.written.map Prod.fst
    let (e2, acc) := run_sections existing' rest
    (e2, if r.component ≠ [] then (t, r.component) :: acc else acc)

/-! ## Page-name normalization (`_page_name_to_filename`, lines 109-124) -/

/-- Python `str.lower` (ASCII case mapping in this model). -/
def pyLower (s : List Char) : List Char := s.map lowerChar

def page_name_to_filename (page_name : List Char) : List Char :=
  if pyLower page_name = "home".data ∨ pyLower page_name = "homepage".data then []
  else (pyLower page_name).map (fun c => if c = ' ' then '-' else c)

/-! ## Helper lemmas -/

theorem char_toNat_ofNat {n : Nat} (h : n.isValidChar) : (Char.ofNat n).toNat = n := by
  unfold Char.ofNat
  split
  · rfl
  · contradiction

theorem char_ofNat_toNat (c : Char) : Char.ofNat c.toNat = c := by
  unfold Char.ofNat
  split
  · rfl
  · rename_i h
    exact absurd c.valid (by simpa [Char.toNat] using h)

theorem char_valid_toNat (c : Char) : c.toNat.isValidChar := by
  have := c.valid
  simpa [Char.toNat] using this

/-- `lowerChar` never produces an ASCII uppercase letter. -/
theorem lowerChar_not_upper (a : Char) :
    ¬(65 ≤ (lowerChar a).toNat ∧ (lowerChar a).toNat ≤ 90) := by
  unfold lowerChar
  by_cases h : 65 ≤ a.toNat ∧ a.toNat ≤ 90
  · have hv : (a.toNat + 32).isValidChar := by unfold Nat.isValidChar; omega
    rw [if_pos h, char_toNat_ofNat hv]
    omega
  · rw [if_neg h]
    omega

theorem jGet_setKey_self (m : List (List Char × JValue)) (k : List Char) (v : JValue) :
    jGet (setKey m k v) k = some v := by
  induction m with
  | nil => simp [setKey, jGet]
  | cons kv rest ih =>
    by_cases h : kv.1 = k
    · simp [setKey, h, jGet]
    · simp [setKey, h, jGet, ih]

theorem jGet_setKey_ne (m : List (List Char × JValue)) (k : List Char) (v : JValue)
    (k' : List Char) (h : k' ≠ k) : jGet (setKey m k v) k' = jGet m k' := by
  induction m with
  | nil => simp [setKey, jGet, Ne.symm h]
  | cons kv rest ih =>
    by_cases hk : kv.1 = k
    · subst hk
      simp [setKey, jGet, Ne.symm h, h]
    · simp only [setKey, if_neg hk]
      by_cases hk' : kv.1 = k'
      · simp [jGet, hk']
      · simp [jGet, hk', ih]

theorem hasKey_setKey_of_hasKey (m : List (List Char × JValue)) (k : List Char) (v : JValue)
    (hm : hasKey m k = true) (k' : List Char) :
    hasKey (setKey m k v) k' = hasKey m k' := by
  by_cases h : k' = k
  · subst h
    simp [hasKey, jGet_setKey_self]
    simpa [hasKey] using hm
  · simp [hasKey, jGet_setKey_ne m k v k' h]

theorem updateColors_cons (m : List (List Char × JValue)) (p : List Char × List Char)
    (rest : List (List Char × List Char)) :
    updateColors m (p :: rest) =
      updateColors (if hasKey m p.1 then setKey m p.1 (JValue.jstr p.2) else m) rest := by
  simp [updateColors, List.foldl_cons]

/-- Applying preferences never adds or removes keys of the colors mapping. -/
theorem hasKey_updateColors (prefs : List (List Char × List Char))
    (m : List (List Char × JValue)) (k : List Char) :
    hasKey (updateColors m prefs) k = hasKey m k := by
  induction prefs generalizing m with
  | nil => rfl
  | cons p rest ih =>
    rw [updateColors_cons]
    by_cases hp : hasKey m p.1
    · rw [if_pos hp, ih, hasKey_setKey_of_hasKey m p.1 _ hp]
    · rw [if_neg hp, ih]

/-- Keys not named by any preference keep their values. -/
theorem jGet_updateColors_not_mem (prefs : List (List Char × List Char))
    (m : List (List Char × JValue)) (k : List Char) (h : k ∉ prefs.map Prod.fst) :
    jGet (updateColors m prefs) k = jGet m k := by
  induction prefs generalizing m with
  | nil => rfl
  | cons p rest ih =>
    rw [updateColors_cons]
    have hk : k ≠ p.1 := by
      intro he; exact h (by simp [he])
    have hrest : k ∉ rest.map Prod.fst := by
      intro he; exact h (by simp [he])
    by_cases hp : hasKey m p.1
    · rw [if_pos hp, ih _ hrest, jGet_setKey_ne m p.1 _ k hk]
    · rw [if_neg hp, ih _ hrest]

/-- A preference whose key is present in the colors mapping ends up applied
(assuming, as for a Python dict, that preference keys are distinct). -/
theorem jGet_updateColors_mem (prefs : List (List Char × List Char))
    (m : List (List Char × JValue)) (k v : List Char)
    (hnodup : (prefs.map Prod.fst).Nodup) (hmem : (k, v) ∈ prefs)
    (hk : hasKey m k = true) :
    jGet (updateColors m prefs) k = some (JValue.jstr v) := by
  induction prefs generalizing m with
  | nil => simp at hmem
  | cons p rest ih =>
    obtain ⟨pk, pv⟩ := p
    rw [updateColors_cons]
    rcases List.mem_cons.mp hmem with heq | hmem'
    · injection heq with hk1 hv1
      subst hk1; subst hv1
      rw [if_pos hk]
      have hnr : k ∉ rest.map Prod.fst := by
        simpa using (List.nodup_cons.mp hnodup).1
      rw [jGet_updateColors_not_mem rest _ k hnr, jGet_setKey_self]
    · have hnr : (rest.map Prod.fst).Nodup := by
        simpa using (List.nodup_cons.mp hnodup).2
      by_cases hp : hasKey m pk
      · rw [if_pos hp]
        exact ih _ hnr hmem' (by rw [hasKey_setKey_of_hasKey m pk _ hp]; exact hk)
      · rw [if_neg hp]
        exact ih _ hnr hmem' hk

/-- A character never found by `findCharAux` is absent, and conversely. -/
theorem findCharAux_eq_none (c : Char) (s : List Char) (h : c ∉ s) :
    findCharAux c s = none := by
  induction s with
  | nil => rfl
  | cons x xs ih =>
    have hx : ¬x = c := by
      intro he; exact h (by simp [he])
    simp only [findCharAux, if_neg hx]
    rw [ih (fun hm => h (List.mem_cons_of_mem x hm))]
    rfl

/-- If a pattern occurs nowhere from the left, it occurs nowhere from the right. -/
theorem rfindSubAux_eq_none (pat : List Char) (s : List Char)
    (h : findSubAux pat s = none) : rfindSubAux pat s = none := by
  induction s with
  | nil => simpa [findSubAux, rfindSubAux] using h
  | cons x xs ih =>
    simp only [findSubAux] at h
    by_cases hp : pat.isPrefixOf (x :: xs)
    · simp [hp] at h
    · rw [if_neg hp] at h
      have hxs : findSubAux pat xs = none := by
        cases hc : findSubAux pat xs with
        | none => rfl
        | some i => rw [hc] at h; simp at h
      simp [rfindSubAux, ih hxs, hp]

/-- `pyFindSubFrom` is `-1` or a position. -/
theorem pyFindSubFrom_ge (pat s : List Char) (st : Int) :
    -1 ≤ pyFindSubFrom pat s st := by
  simp only [pyFindSubFrom]
  rcases h : findSubAux pat (s.drop (sliceNorm s.length st)) with _ | i <;> simp [h] <;> omega

/-! ## Claims -/

/-- C10 counterexample: the empty page name also maps to the empty directory
name, although its lowercasing is neither "home" nor "homepage" — so
"empty exactly when the name lowercased equals home or homepage" fails. -/
theorem C10_page_name_empty_cex :
    page_name_to_filename [] = [] ∧
    pyLower [] ≠ "home".data ∧ pyLower [] ≠ "homepage".data := by
  refine ⟨by decide, by decide, by decide⟩

/-- C10 (amended): the derived page directory name is empty exactly when the
lowercased name is "home" or "homepage" **or the name itself is empty**; in
every case the result contains no space and no ASCII uppercase letter. -/
theorem C10_page_name_normalization (name : List Char) :
    (page_name_to_filename name = [] ↔
      pyLower name = "home".data ∨ pyLower name = "homepage".data ∨ name = []) ∧
    ∀ c, c ∈ page_name_to_filename name →
      c ≠ ' ' ∧ ¬(65 ≤ c.toNat ∧ c.toNat ≤ 90) := by
  unfold page_name_to_filename
  by_cases h : pyLower name = "home".data ∨ pyLower name = "homepage".data
  · rw [if_pos h]
    refine ⟨⟨fun _ => ?_, fun _ => rfl⟩, fun c hc => absurd hc (by simp)⟩
    rcases h with h1 | h2
    · exact Or.inl h1
    · exact Or.inr (Or.inl h2)
  · rw [if_neg h]
    constructor
    · constructor
      · intro he
        refine Or.inr (Or.inr ?_)
        have hlen : name.length = 0 := by
          have := congrArg List.length he
          simpa [pyLower] using this
        exact List.length_eq_zero.mp hlen
      · rintro (h1 | h2 | h3)
        · exact absurd (Or.inl h1) h
        · exact absurd (Or.inr h2) h
        · subst h3; rfl
    · intro c hc
      rw [List.mem_map] at hc
      obtain ⟨b, hb, hbc⟩ := hc
      rw [pyLower, List.mem_map] at hb
      obtain ⟨a, _, hab⟩ := hb
      subst hab
      by_cases hsp : lowerChar a = ' '
      · rw [if_pos hsp] at hbc
        subst hbc
        exact ⟨by decide, by decide⟩
      · rw [if_neg hsp] at hbc
        subst hbc
        exact ⟨hsp, lowerChar_not_upper a⟩

/-- C10 witness: concrete instance of the amended normalization property. -/
theorem C10_page_name_witness :
    (page_name_to_filename "My Page".data = [] ↔
      pyLower "My Page".data = "home".data ∨ pyLower "My Page".data = "homepage".data ∨
      "My Page".data = []) ∧
    ('m' ≠ ' ' ∧ ¬(65 ≤ 'm'.toNat ∧ 'm'.toNat ≤ 90)) :=
  ⟨(C10_page_name_normalization "My Page".data).1,
   (C10_page_name_normalization "My Page".data).2 'm' (by decide)⟩

/-- C6 counterexample: with `hero.tsx` present, a section of type "Hero" is
*not* matched (the lookup is case-sensitive and applies no normalization), so
the external generation call is made — contradicting the claimed
case-insensitive reuse. -/
theorem C6_template_lookup_cex :
    section_exists ["hero.tsx".data] "Hero".data = false ∧
    (generate_section ["hero.tsx".data] "Hero".data "d".data "```x```".data).calledApi = true := by
  refine ⟨by decide, by decide⟩

/-- C6 (amended): when the *exact* type string has a matching `<type>.tsx`
file in the sections directory, the section short-circuits: the existing
component is referenced by name, nothing is written and no external
generation call is made.  Matching is case-sensitive string equality, with no
normalization. -/
theorem C6_template_reuse (existing : List (List Char)) (t d api : List Char)
    (h : section_exists existing t = true) :
    generate_section existing t d api = ⟨t, [], false⟩ := by
  simp [generate_section, h]

/-- C6 witness: concrete reuse of an existing `hero.tsx`. -/
theorem C6_template_reuse_witness :
    section_exists ["hero.tsx".data] "hero".data = true ∧
    generate_section ["hero.tsx".data] "hero".data "d".data "api".data =
      ⟨"hero".data, [], false⟩ :=
  ⟨by decide, C6_template_reuse _ _ _ _ (by decide)⟩

/-- C4 counterexample: a section whose generation yields empty content is
silently dropped — the component name is empty, nothing is written (no
placeholder containing the description), and the page's section list omits
it. -/
theorem C4_empty_section_cex :
    generate_section [] "hero".data "Welcome banner".data "no code here".data =
      ⟨[], [], true⟩ ∧
    (run_sections [] [(("hero".data, "Welcome banner".data), "no code here".data)]).2 = [] := by
  refine ⟨by decide, by decide⟩

/-- C4 (amended): a section whose generation yields empty content is skipped:
`_generate_section` returns the empty component name and writes no file, and
the page loop omits the section from the page's section list; no placeholder
is substituted. -/
theorem C4_empty_section_skipped (existing : List (List Char)) (t d api : List Char)
    (rest : List ((List Char × List Char) × List Char))
    (hex : section_exists existing t = false) (hc : extract_code api = none) :
    generate_section existing t d api = ⟨[], [], true⟩ ∧
    run_sections existing ((( t, d), api) :: rest) = run_sections existing rest := by
  have h1 : generate_section existing t d api = ⟨[], [], true⟩ := by
    simp [generate_section, hex, component_code_of, hc]
  refine ⟨h1, ?_⟩
  simp [run_sections, h1]

/-- C4 witness: concrete skipped section. -/
theorem C4_empty_section_witness :
    generate_section [] "hero".data "d".data "plain text".data = ⟨[], [], true⟩ ∧
    run_sections [] [(("hero".data, "d".data), "plain text".data)] = run_sections [] [] :=
  C4_empty_section_skipped [] "hero".data "d".data "plain text".data []
    (by decide) (by decide)

/-- C2 counterexample: in the brand-guide agent the API call sits outside the
`try`, so an external-call error escapes `generate_style_guide`; in the
sitemap agent the error is recovered but the default result is *not*
persisted. -/
theorem C2_api_failure_cex :
    generate_style_guide ApiResult.exn "Acme".data [] = Except.error () ∧
    (generate_sitemap ApiResult.exn "Acme".data).saved = [] :=
  ⟨rfl, rfl⟩

/-- C2 (amended): on an external-call error the sitemap agent recovers by
returning the hardcoded default sitemap but skips persistence, while the
brand-guide agent lets the error propagate out of the generate operation. -/
theorem C2_api_failure_behavior (name : List Char)
    (prefs : List (List Char × List Char)) :
    generate_style_guide ApiResult.exn name prefs = Except.error () ∧
    generate_sitemap ApiResult.exn name = ⟨default_sitemap name, []⟩ :=
  ⟨rfl, rfl⟩

/-- With an empty preference mapping the color-application step is the identity. -/
theorem apply_color_preferences_nil (bg : JValue) : apply_color_preferences bg [] = bg := by
  cases bg <;> simp [apply_color_preferences, apply_color_preferences_kvs]

/-- C3 counterexample: a preference key absent from the guide's colors mapping
is *not* added by the merge step — contradicting "keys that were absent from
the base ... are added". -/
theorem C3_absent_key_cex :
    hasKey (guideColors default_brand_guide) "tertiary".data = false ∧
    jGet (guideColors (apply_color_preferences default_brand_guide
        [("tertiary".data, "#123456".data)])) "tertiary".data = none := by
  refine ⟨by decide, rfl⟩

/-- C3 (amended): for distinct preference keys, each preference key *already
present* in the colors mapping is set to the preferred value; keys absent
from the colors mapping are skipped and remain absent. -/
theorem C3_merge_update_keys (colors : List (List Char × JValue))
    (prefs : List (List Char × List Char)) (k v : List Char)
    (hnodup : (prefs.map Prod.fst).Nodup) :
    ((k, v) ∈ prefs → hasKey colors k = true →
        jGet (updateColors colors prefs) k = some (JValue.jstr v)) ∧
    (hasKey colors k = false → hasKey (updateColors colors prefs) k = false) :=
  ⟨fun hmem hk => jGet_updateColors_mem prefs colors k v hnodup hmem hk,
   fun hk => by rw [hasKey_updateColors]; exact hk⟩

/-- C3 witness: a "primary" preference is applied to the default guide's
colors; a "tertiary" preference would stay absent. -/
theorem C3_merge_update_keys_witness :
    jGet (updateColors (guideColors default_brand_guide)
        [("primary".data, "#000".data)]) "primary".data =
      some (JValue.jstr "#000".data) ∧
    hasKey (updateColors (guideColors default_brand_guide)
        [("primary".data, "#000".data)]) "tertiary".data = false :=
  ⟨(C3_merge_update_keys (guideColors default_brand_guide)
      [("primary".data, "#000".data)] "primary".data "#000".data (by decide)).1
      (by decide) (by decide),
   (C3_merge_update_keys (guideColors default_brand_guide)
      [("primary".data, "#000".data)] "tertiary".data "x".data (by decide)).2
      (by decide)⟩

/-- C8: frame property of the merge step — top-level keys other than
`"colors"` are untouched, and colors entries not named by any preference keep
their values. -/
theorem C8_merge_frame (kvs : List (List Char × JValue))
    (prefs : List (List Char × List Char)) :
    (∀ k, k ≠ "colors".data →
        jGet (apply_color_preferences_kvs kvs prefs) k = jGet kvs k) ∧
    (∀ colors k, jGet kvs "colors".data = some (JValue.jobj colors) →
        k ∉ prefs.map Prod.fst →
        jGet (updateColors colors prefs) k = jGet colors k) := by
  constructor
  · intro k hk
    unfold apply_color_preferences_kvs
    split
    · split
      · rw [jGet_setKey_ne _ _ _ k hk]
      · rfl
    · rfl
  · intro colors k _ hnm
    exact jGet_updateColors_not_mem prefs colors k hnm

/-- C8 witness: the spec's concrete example — merging
`{"colors": {"primary": "#000"}}` onto
`{"colors": {"primary": "#fff", "secondary": "#aaa"}, "ui_style": "modern"}`
leaves `"secondary"` and `"ui_style"` unchanged. -/
theorem C8_merge_frame_witness :
    jGet (apply_color_preferences_kvs
        [("colors".data, JValue.jobj [("primary".data, js "#fff"), ("secondary".data, js "#aaa")]),
         ("ui_style".data, js "modern")]
        [("primary".data, "#000".data)]) "ui_style".data =
      jGet [("colors".data, JValue.jobj [("primary".data, js "#fff"), ("secondary".data, js "#aaa")]),
            ("ui_style".data, js "modern")] "ui_style".data ∧
    jGet (updateColors [("primary".data, js "#fff"), ("secondary".data, js "#aaa")]
        [("primary".data, "#000".data)]) "secondary".data =
      jGet [("primary".data, js "#fff"), ("secondary".data, js "#aaa")] "secondary".data :=
  ⟨(C8_merge_frame
      [("colors".data, JValue.jobj [("primary".data, js "#fff"), ("secondary".data, js "#aaa")]),
       ("ui_style".data, js "modern")]
      [("primary".data, "#000".data)]).1 "ui_style".data (by decide),
   (C8_merge_frame
      [("colors".data, JValue.jobj [("primary".data, js "#fff"), ("secondary".data, js "#aaa")]),
       ("ui_style".data, js "modern")]
      [("primary".data, "#000".data)]).2
      [("primary".data, js "#fff"), ("secondary".data, js "#aaa")] "secondary".data
      rfl (by decide)⟩

/-- C5 counterexample: without a fence the component extraction yields the
empty string, not the trimmed input (here the input is already stripped and
nonempty); and a `python` language tag is *not* stripped from a fenced
block. -/
theorem C5_no_fence_cex :
    component_code_of "const x = 1;".data = [] ∧
    pyStrip "const x = 1;".data = "const x = 1;".data ∧
    "const x = 1;".data ≠ ([] : List Char) ∧
    component_code_of "```python\nfoo()\n```".data = "python\nfoo()".data := by
  refine ⟨by decide, by decide, by decide, by decide⟩

/-- C5 (amended): for text with no triple-backtick fence, extraction fails
and the callers fall back — `_generate_component_code` returns the empty
string and `_generate_page` uses the default page; the trimmed input is never
used as the code body. -/
theorem C5_extraction_fallback (text : List Char)
    (h : pyFindSub "```".data text = -1) :
    extract_code text = none ∧
    component_code_of text = [] ∧
    ∀ page_name sections, page_content_of text page_name sections =
        create_default_page page_name sections := by
  have hfa : findSubAux "```".data text = none := by
    rcases hc : findSubAux "```".data text with _ | i
    · rfl
    · unfold pyFindSub at h
      rw [hc] at h
      exact absurd h (by simp)
  have hr : pyRfindSub "```".data text = -1 := by
    unfold pyRfindSub
    rw [rfindSubAux_eq_none _ _ hfa]
  have hext : extract_code text = none := by
    simp only [extract_code]
    rw [h, hr]
    by_cases ht :
        pyContainsSub "typescript".data (pySlice text (-1 + 3) (-1 + 3 + 20)) = true
    · rw [if_pos ht]
      have hge := pyFindSubFrom_ge "\n".data text (-1 + 3)
      rw [if_neg (by omega)]
    · rw [if_neg ht]
      rw [if_neg (by omega)]
  refine ⟨hext, ?_, ?_⟩
  · simp [component_code_of, hext]
  · intro page_name sections
    simp [page_content_of, hext]

/-- C5 witness: concrete fallback on fence-less text. -/
theorem C5_extraction_fallback_witness :
    extract_code "hello".data = none ∧
    component_code_of "hello".data = [] ∧
    page_content_of "hello".data "Home".data [] = create_default_page "Home".data [] :=
  have h := C5_extraction_fallback "hello".data (by decide)
  ⟨h.1, h.2.1, h.2.2 "Home".data []⟩

/-- C7: for response text containing no brace at all, JSON extraction fails
and both agents substitute their type-appropriate default document unchanged
(and, the extraction being a total function here, no exception escapes it). -/
theorem C7_braceless_default (text business_name : List Char)
    (h1 : '\x7b' ∉ text) (_h2 : '\x7d' ∉ text) :
    extract_json text = none ∧
    generate_sitemap (ApiResult.ok text) business_name =
      ⟨default_sitemap business_name, [default_sitemap business_name]⟩ ∧
    generate_style_guide (ApiResult.ok text) business_name [] =
      Except.ok ⟨default_brand_guide, [default_brand_guide]⟩ := by
  have hfind : pyFindChar '\x7b' text = -1 := by
    unfold pyFindChar
    rw [findCharAux_eq_none _ _ h1]
  have hext : extract_json text = none := by
    simp only [extract_json]
    rw [hfind]
    rw [if_neg (by omega)]
  refine ⟨hext, ?_, ?_⟩
  · simp [generate_sitemap, hext]
  · simp [generate_style_guide, hext, apply_color_preferences_nil]

/-- Brace balance of a string (the spec's "contains no unbalanced brace"):
every closing brace matches an earlier opening one and the final depth is
zero. -/
def balancedAux : List Char → Int → Bool
  | [], d => d = 0
  | c :: cs, d =>
    if c = '\x7b' then balancedAux cs (d + 1)
    else if c = '\x7d' then (0 < d) && balancedAux cs (d - 1)
    else balancedAux cs d

def balancedBraces (s : List Char) : Bool := balancedAux s 0

theorem findCharAux_append_cons (c : Char) (pre rest : List Char) (h : c ∉ pre) :
    findCharAux c (pre ++ c :: rest) = some pre.length := by
  induction pre with
  | nil => simp [findCharAux]
  | cons x xs ih =>
    have hx : ¬x = c := fun he => h (by simp [he])
    rw [List.cons_append]
    simp only [findCharAux, if_neg hx]
    rw [ih (fun hm => h (List.mem_cons_of_mem x hm))]
    simp

theorem rfindCharAux_eq_none (c : Char) (s : List Char) (h : c ∉ s) :
    rfindCharAux c s = none := by
  induction s with
  | nil => rfl
  | cons x xs ih =>
    have hx : ¬x = c := fun he => h (by simp [he])
    simp [rfindCharAux, ih (fun hm => h (List.mem_cons_of_mem x hm)), hx]

theorem rfindCharAux_append_cons (c : Char) (A suf : List Char) (h : c ∉ suf) :
    rfindCharAux c (A ++ c :: suf) = some A.length := by
  induction A with
  | nil => simp [rfindCharAux, rfindCharAux_eq_none c suf h]
  | cons x xs ih => simp [rfindCharAux, ih]

/-- C1 counterexample: with the balanced-brace prefix `"{}"` (and empty
suffix), the slice from the first `{` to the last `}` is `{}{"a": 1}`, which
is not valid JSON, so extraction fails instead of returning the value of
`{"a": 1}` — the spec's "no unbalanced brace" side condition is too weak. -/
theorem C1_balanced_noise_cex :
    balancedBraces "\x7b\x7d".data = true ∧
    balancedBraces ([] : List Char) = true ∧
    jsonLoads ('\x7b' :: "\"a\": 1".data ++ ['\x7d']) =
      some (JValue.jobj [("a".data, JValue.jnum 1)]) ∧
    extract_json ("\x7b\x7d".data ++ ('\x7b' :: "\"a\": 1".data ++ ['\x7d']) ++ []) =
      none := by
  refine ⟨by decide, by decide, rfl, rfl⟩

/-- C1 (amended): extraction recovers exactly the directly-parsed value
whenever the prefix contains no `{` and the suffix contains no `}` (balanced
brace pairs in the prefix/suffix can still break the slice). -/
theorem C1_extraction_correct (pre body suf : List Char) (v : JValue)
    (hpre : '\x7b' ∉ pre) (hsuf : '\x7d' ∉ suf)
    (hparse : jsonLoads ('\x7b' :: body ++ ['\x7d']) = some v) :
    extract_json (pre ++ ('\x7b' :: body ++ ['\x7d']) ++ suf) = some v := by
  have ht1 : pre ++ ('\x7b' :: body ++ ['\x7d']) ++ suf =
      pre ++ '\x7b' :: (body ++ '\x7d' :: suf) := by
    simp
  have ht2 : pre ++ ('\x7b' :: body ++ ['\x7d']) ++ suf =
      (pre ++ '\x7b' :: body) ++ '\x7d' :: suf := by
    simp
  have hfind : pyFindChar '\x7b' (pre ++ ('\x7b' :: body ++ ['\x7d']) ++ suf) =
      (pre.length : Int) := by
    unfold pyFindChar
    rw [ht1, findCharAux_append_cons _ _ _ hpre]
  have hrfind : pyRfindChar '\x7d' (pre ++ ('\x7b' :: body ++ ['\x7d']) ++ suf) =
      ((pre.length + (body.length + 1) : Nat) : Int) := by
    unfold pyRfindChar
    rw [ht2, rfindCharAux_append_cons _ _ _ hsuf]
    simp
  have hslice : pySlice (pre ++ ('\x7b' :: body ++ ['\x7d']) ++ suf)
      (pre.length : Int) (((pre.length + (body.length + 1) : Nat) : Int) + 1) =
      '\x7b' :: body ++ ['\x7d'] := by
    unfold pySlice sliceNorm
    have hlen : (pre ++ ('\x7b' :: body ++ ['\x7d']) ++ suf).length =
        pre.length + (body.length + 2) + suf.length := by
      simp only [List.length_append, List.length_cons, List.length_nil]
    rw [if_neg (by omega), if_neg (by omega), hlen]
    have h1 : min ((((pre.length + (body.length + 1) : Nat) : Int) + 1)).toNat
        (pre.length + (body.length + 2) + suf.length) = pre.length + (body.length + 2) := by
      omega
    have h2 : min ((pre.length : Int)).toNat
        (pre.length + (body.length + 2) + suf.length) = pre.length := by
      omega
    rw [h1, h2]
    rw [@List.take_left' _ (pre ++ ('\x7b' :: body ++ ['\x7d'])) suf _ (by simp)]
    rw [List.drop_left' (by rfl)]
  simp only [extract_json]
  rw [hfind, hrfind, if_pos (by constructor <;> omega), hslice]
  exact hparse

/-- C1 witness: concrete prefix/suffix noise around `{"a": 1}`. -/
theorem C1_extraction_correct_witness :
    extract_json ("Sure: ".data ++ ('\x7b' :: "\"a\": 1".data ++ ['\x7d']) ++ " done".data) =
      some (JValue.jobj [("a".data, JValue.jnum 1)]) :=
  C1_extraction_correct "Sure: ".data "\"a\": 1".data " done".data
    (JValue.jobj [("a".data, JValue.jnum 1)]) (by decide) (by decide) rfl

/-! ## Round-trip of persistence (`json.dump(..., indent=2)` + `json.load`)

The remaining machinery proves that parsing inverts serialization for every
document value, which is exactly the persist-then-reload round trip of
`_save_sitemap` / `edit_sitemap` (and the brand-guide twins): the dump is
written to the fixed-name file and read back verbatim. -/

mutual

/-- Parser fuel needed for a value (one unit per value and per list step). -/
def jfuel : JValue → Nat
  | JValue.jnull => 1
  | JValue.jbool _ => 1
  | JValue.jnum _ => 1
  | JValue.jstr _ => 1
  | JValue.jarr vs => 1 + jfuelElems vs
  | JValue.jobj kvs => 1 + jfuelMembers kvs

def jfuelElems : List JValue → Nat
  | [] => 0
  | v :: vs => 1 + jfuel v + jfuelElems vs

def jfuelMembers : List (List Char × JValue) → Nat
  | [] => 0
  | (_, v) :: kvs => 1 + jfuel v + jfuelMembers kvs

end

theorem jfuel_pos (v : JValue) : 1 ≤ jfuel v := by
  cases v <;> simp [jfuel]

/-- `skipWs` passes over any run of blanks. -/
theorem skipWs_spaces_append (n : Nat) (x : List Char) :
    skipWs (spaces n ++ x) = skipWs x := by
  induction n with
  | zero => simp [spaces]
  | succ m ih =>
    show skipWs (List.replicate (m + 1) ' ' ++ x) = skipWs x
    rw [List.replicate_succ, List.cons_append]
    show skipWs (' ' :: (List.replicate m ' ' ++ x)) = skipWs x
    simp only [skipWs, isJsonWs]
    rw [if_pos (by decide)]
    exact ih

theorem skipWs_cons_of_not_ws (c : Char) (x : List Char) (h : isJsonWs c = false) :
    skipWs (c :: x) = c :: x := by
  simp [skipWs, h]

theorem skipWs_newline (x : List Char) : skipWs ('\n' :: x) = skipWs x := by
  simp [skipWs, isJsonWs]

theorem skipWs_idem (cs : List Char) : skipWs (skipWs cs) = skipWs cs := by
  induction cs with
  | nil => rfl
  | cons c r ih =>
    by_cases h : isJsonWs c = true
    · simp [skipWs, h, ih]
    · simp only [Bool.not_eq_true] at h
      rw [skipWs_cons_of_not_ws c r h, skipWs_cons_of_not_ws c r h]

/-- `parseValue` may be fed whitespace-normalized input. -/
theorem parseValue_skipWs (fuel : Nat) (cs : List Char) :
    parseValue fuel cs = parseValue fuel (skipWs cs) := by
  cases fuel with
  | zero => rfl
  | succ f =>
    show parseValue (f + 1) cs = parseValue (f + 1) (skipWs cs)
    simp only [parseValue, skipWs_idem]

/-- An ASCII digit is none of the structural characters of JSON. -/
theorem digit_char_facts (c : Char) (h : isAsciiDigit c = true) :
    c ≠ '\x7b' ∧ c ≠ '[' ∧ c ≠ '"' ∧ c ≠ 't' ∧ c ≠ 'f' ∧ c ≠ 'n' ∧
    isJsonWs c = false ∧ c ≠ ']' ∧ c ≠ '\x7d' ∧ c ≠ ',' := by
  have hne : ∀ x : Char, isAsciiDigit x = false → c ≠ x := by
    intro x hx he
    rw [he, hx] at h
    exact Bool.false_ne_true h
  have hws : isJsonWs c = false := by
    unfold isJsonWs
    simp [hne ' ' (by decide), hne '\t' (by decide), hne '\n' (by decide),
      hne '\x0d' (by decide)]
  exact ⟨hne '\x7b' (by decide), hne '[' (by decide), hne '"' (by decide),
    hne 't' (by decide), hne 'f' (by decide), hne 'n' (by decide), hws,
    hne ']' (by decide), hne '\x7d' (by decide), hne ',' (by decide)⟩

theorem natDigitsAux_spec (fuel n : Nat) (h : n < fuel) :
    natDigitsAux fuel n ≠ [] ∧
    (∀ c ∈ natDigitsAux fuel n, isAsciiDigit c = true) ∧
    digitsToNat (natDigitsAux fuel n) = n ∧
    ((natDigitsAux fuel n).head? = some '0' → n = 0) := by
  induction fuel generalizing n with
  | zero => omega
  | succ f ih =>
    by_cases hn : n < 10
    · have hv : (48 + n).isValidChar := by unfold Nat.isValidChar; omega
      have htn : (toDigitChar n).toNat = 48 + n := char_toNat_ofNat hv
      refine ⟨by simp [natDigitsAux, hn], ?_, ?_, ?_⟩
      · intro c hc
        simp only [natDigitsAux, if_pos hn, List.mem_singleton] at hc
        subst hc
        simp only [isAsciiDigit, htn]
        simp
        omega
      · simp only [natDigitsAux, if_pos hn, digitsToNat, List.foldl_cons, List.foldl_nil,
          htn, show '0'.toNat = 48 from rfl]
        omega
      · simp only [natDigitsAux, if_pos hn, List.head?_cons, Option.some.injEq]
        intro he
        have := congrArg Char.toNat he
        rw [htn] at this
        simp at this
        omega
    · have hrec : n / 10 < f := by omega
      obtain ⟨ihne, ihdig, ihval, ihz⟩ := ih (n / 10) hrec
      have hv : (48 + n % 10).isValidChar := by unfold Nat.isValidChar; omega
      have htn : (toDigitChar (n % 10)).toNat = 48 + n % 10 := char_toNat_ofNat hv
      simp only [natDigitsAux, if_neg hn]
      refine ⟨by simp, ?_, ?_, ?_⟩
      · intro c hc
        rcases List.mem_append.mp hc with hc1 | hc2
        · exact ihdig c hc1
        · rw [List.mem_singleton] at hc2
          subst hc2
          simp only [isAsciiDigit, htn]
          simp
          omega
      · unfold digitsToNat
        rw [List.foldl_append]
        have : digitsToNat (natDigitsAux f (n / 10)) = n / 10 := ihval
        unfold digitsToNat at this
        rw [this]
        simp only [List.foldl_cons, List.foldl_nil, htn, show '0'.toNat = 48 from rfl]
        omega
      · obtain ⟨d, ds, hds⟩ := List.exists_cons_of_ne_nil ihne
        rw [hds]
        simp only [List.cons_append, List.head?_cons, Option.some.injEq]
        intro he
        have h0 : (natDigitsAux f (n / 10)).head? = some '0' := by rw [hds, he]; rfl
        have := ihz h0
        omega

theorem takeWhile_append_all {p : Char → Bool} (xs ys : List Char)
    (h : ∀ c ∈ xs, p c = true) : (xs ++ ys).takeWhile p = xs ++ ys.takeWhile p := by
  induction xs with
  | nil => simp
  | cons x r ih =>
    rw [List.cons_append, List.takeWhile_cons, if_pos (h x (by simp))]
    rw [ih (fun c hc => h c (by simp [hc]))]
    rfl

theorem dropWhile_append_all {p : Char → Bool} (xs ys : List Char)
    (h : ∀ c ∈ xs, p c = true) : (xs ++ ys).dropWhile p = ys.dropWhile p := by
  induction xs with
  | nil => simp
  | cons x r ih =>
    rw [List.cons_append, List.dropWhile_cons, if_pos (h x (by simp))]
    exact ih (fun c hc => h c (by simp [hc]))

/-- Input shapes that cannot extend a just-parsed number literal. -/
def numDelim : List Char → Prop
  | [] => True
  | c :: _ => isAsciiDigit c = false ∧ c ≠ '.' ∧ c ≠ 'e' ∧ c ≠ 'E'

theorem parseNatLit_natDigits (n : Nat) (rest : List Char) (hrest : numDelim rest) :
    parseNatLit (natDigits n ++ rest) = some (n, rest) := by
  obtain ⟨hne, hdig, hval, hz⟩ := natDigitsAux_spec (n + 1) n (by omega)
  have htake : (natDigits n ++ rest).takeWhile isAsciiDigit = natDigits n := by
    rw [natDigits, takeWhile_append_all _ _ hdig]
    cases rest with
    | nil => simp
    | cons c r =>
      rw [List.takeWhile_cons, if_neg (by simp [hrest.1])]
      simp
  have hdrop : (natDigits n ++ rest).dropWhile isAsciiDigit = rest := by
    rw [natDigits, dropWhile_append_all _ _ hdig]
    cases rest with
    | nil => simp
    | cons c r =>
      rw [List.dropWhile_cons, if_neg (by simp [hrest.1])]
  simp only [parseNatLit]
  rw [htake, hdrop]
  rw [if_neg (by simpa [natDigits] using hne)]
  have hlz : ¬((natDigits n).head? = some '0' ∧ (natDigits n).length ≠ 1) := by
    rintro ⟨h0, hlen⟩
    have := hz (by simpa [natDigits] using h0)
    subst this
    exact hlen (by decide)
  rw [if_neg hlz]
  have hval' : digitsToNat (natDigits n) = n := hval
  cases rest with
  | nil => rw [hval']
  | cons c r =>
    obtain ⟨_, h1, h2, h3⟩ := hrest
    show (if c = '.' ∨ c = 'e' ∨ c = 'E' then none
          else some (digitsToNat (natDigits n), c :: r)) = some (n, c :: r)
    rw [if_neg (by simp [h1, h2, h3]), hval']

theorem parseNumLit_cons (c : Char) (r : List Char) :
    parseNumLit (c :: r) =
      if c = '-' then (parseNatLit r).map (fun p => (-(p.1 : Int), p.2))
      else (parseNatLit (c :: r)).map (fun p => ((p.1 : Int), p.2)) := rfl

theorem parseNumLit_serInt (i : Int) (rest : List Char) (hrest : numDelim rest) :
    parseNumLit (serInt i ++ rest) = some (i, rest) := by
  by_cases hneg : i < 0
  · simp only [serInt, if_pos hneg, List.cons_append]
    rw [parseNumLit_cons, if_pos rfl, parseNatLit_natDigits _ _ hrest,
      Option.map_some']
    have : -(i.natAbs : Int) = i := by omega
    rw [this]
  · simp only [serInt, if_neg hneg]
    obtain ⟨hne, hdig, -, -⟩ := natDigitsAux_spec (i.toNat + 1) i.toNat (by omega)
    rcases hshape : natDigits i.toNat with _ | ⟨d, ds⟩
    · exact absurd (by simpa [natDigits] using hshape) hne
    · have hd : isAsciiDigit d = true := by
        refine hdig d ?_
        have : d ∈ natDigits i.toNat := by rw [hshape]; simp
        simpa [natDigits] using this
      have hdm : ¬d = '-' := by
        intro he; rw [he] at hd; revert hd; decide
      simp only [List.cons_append]
      rw [parseNumLit_cons, if_neg hdm, ← List.cons_append, ← hshape,
        parseNatLit_natDigits _ _ hrest, Option.map_some']
      have : ((i.toNat : Int)) = i := by omega
      rw [this]

/-- The first character of a serialized integer is a digit or a minus sign. -/
theorem serInt_head (i : Int) :
    ∃ d ds, serInt i = d :: ds ∧ (isAsciiDigit d = true ∨ d = '-') := by
  by_cases hneg : i < 0
  · exact ⟨'-', natDigits i.natAbs, by simp [serInt, hneg], Or.inr rfl⟩
  · obtain ⟨hne, hdig, -, -⟩ := natDigitsAux_spec (i.toNat + 1) i.toNat (by omega)
    rcases hshape : natDigits i.toNat with _ | ⟨d, ds⟩
    · exact absurd (by simpa [natDigits] using hshape) hne
    · refine ⟨d, ds, by simp [serInt, hneg, hshape], Or.inl ?_⟩
      refine hdig d ?_
      have : d ∈ natDigits i.toNat := by rw [hshape]; simp
      simpa [natDigits] using this

theorem parseHexDigit_toHexDigitChar (n : Nat) (h : n < 16) :
    parseHexDigit (toHexDigitChar n) = some n := by
  interval_cases n <;> decide

theorem parseHex4_toHex4 (n : Nat) (h : n < 0x10000) :
    parseHex4 (toHexDigitChar (n / 4096 % 16)) (toHexDigitChar (n / 256 % 16))
      (toHexDigitChar (n / 16 % 16)) (toHexDigitChar (n % 16)) = some n := by
  rw [parseHex4, parseHexDigit_toHexDigitChar _ (by omega),
    parseHexDigit_toHexDigitChar _ (by omega), parseHexDigit_toHexDigitChar _ (by omega),
    parseHexDigit_toHexDigitChar _ (by omega)]
  simp only [Option.some.injEq]
  omega

set_option maxHeartbeats 1000000 in
/-- Escaping never shrinks a string. -/
theorem serStrBody_length (s : List Char) : s.length ≤ (serStrBody s).length := by
  induction s with
  | nil => simp [serStrBody]
  | cons c cs ih =>
    have hc : 1 ≤ (escapeChar c).length := by
      unfold escapeChar
      split_ifs <;> simp [toHex4]
    have : serStrBody (c :: cs) = escapeChar c ++ serStrBody cs := rfl
    rw [this, List.length_append, List.length_cons]
    omega

theorem parseStrBody_succ (f : Nat) (c : Char) (r : List Char) :
    parseStrBody (f + 1) (c :: r) =
      if c = '"' then some ([], r)
      else if c = '\\' then
        match parseEscape r with
        | none => none
        | some p => (parseStrBody f p.2).map (fun q => (p.1 :: q.1, q.2))
      else if c.toNat < 0x20 then none
      else (parseStrBody f r).map (fun q => (c :: q.1, q.2)) := rfl

theorem parseStrBody_succ_esc (f : Nat) (r : List Char) (ch : Char) (r2 : List Char)
    (h : parseEscape r = some (ch, r2)) :
    parseStrBody (f + 1) ('\\' :: r) =
      (parseStrBody f r2).map (fun q => (ch :: q.1, q.2)) := by
  rw [parseStrBody_succ, if_neg (by decide), if_pos rfl, h]

theorem parseEscape_u (R : List Char) : parseEscape ('u' :: R) = parseU R := rfl

theorem parseU_step (a b c d : Char) (r3 : List Char) (n : Nat)
    (h : parseHex4 a b c d = some n) :
    parseU (a :: b :: c :: d :: r3) =
      if 0xD800 ≤ n ∧ n < 0xDC00 then parseLowSurrogate n r3
      else if 0xDC00 ≤ n ∧ n < 0xE000 then none
      else some (Char.ofNat n, r3) := by
  have hu : parseU (a :: b :: c :: d :: r3) =
      match parseHex4 a b c d with
      | none => none
      | some n =>
        if 0xD800 ≤ n ∧ n < 0xDC00 then parseLowSurrogate n r3
        else if 0xDC00 ≤ n ∧ n < 0xE000 then none
        else some (Char.ofNat n, r3) := rfl
  rw [hu, h]

theorem parseLowSurrogate_step (hi : Nat) (a b c d : Char) (r4 : List Char) (lo : Nat)
    (h : parseHex4 a b c d = some lo) :
    parseLowSurrogate hi ('\\' :: 'u' :: a :: b :: c :: d :: r4) =
      if 0xDC00 ≤ lo ∧ lo < 0xE000 then
        some (Char.ofNat (0x10000 + (hi - 0xD800) * 0x400 + (lo - 0xDC00)), r4)
      else none := by
  have hl : parseLowSurrogate hi ('\\' :: 'u' :: a :: b :: c :: d :: r4) =
      match parseHex4 a b c d with
      | none => none
      | some lo =>
        if 0xDC00 ≤ lo ∧ lo < 0xE000 then
          some (Char.ofNat (0x10000 + (hi - 0xD800) * 0x400 + (lo - 0xDC00)), r4)
        else none := rfl
  rw [hl, h]

set_option maxHeartbeats 1600000 in
/-- The string-body parser inverts the escaper (with any tail after the
closing quote). -/
theorem parseStrBody_ser (s rest : List Char) (fuel : Nat)
    (hf : s.length + 1 ≤ fuel) :
    parseStrBody fuel (serStrBody s ++ '"' :: rest) = some (s, rest) := by
  induction s generalizing fuel with
  | nil =>
    obtain ⟨f, rfl⟩ : ∃ f, fuel = f + 1 := ⟨fuel - 1, by omega⟩
    show parseStrBody (f + 1) ('"' :: rest) = some ([], rest)
    rw [parseStrBody_succ, if_pos rfl]
  | cons c cs ih =>
    obtain ⟨f, rfl⟩ : ∃ f, fuel = f + 1 := ⟨fuel - 1, by omega⟩
    have hf' : cs.length + 1 ≤ f := by
      rw [List.length_cons] at hf
      omega
    have hser : serStrBody (c :: cs) ++ '"' :: rest =
        escapeChar c ++ (serStrBody cs ++ '"' :: rest) := by
      show (escapeChar c ++ serStrBody cs) ++ '"' :: rest = _
      rw [List.append_assoc]
    rw [hser]
    by_cases h1 : c = '"'
    · subst h1
      rw [show escapeChar '"' ++ (serStrBody cs ++ '"' :: rest) =
          '\\' :: ('"' :: (serStrBody cs ++ '"' :: rest)) from rfl]
      rw [parseStrBody_succ_esc f ('"' :: (serStrBody cs ++ '"' :: rest)) '"'
              (serStrBody cs ++ '"' :: rest) rfl, ih f hf']
      rfl
    · by_cases h2 : c = '\\'
      · subst h2
        rw [show escapeChar '\\' ++ (serStrBody cs ++ '"' :: rest) =
            '\\' :: ('\\' :: (serStrBody cs ++ '"' :: rest)) from rfl]
        rw [parseStrBody_succ_esc f ('\\' :: (serStrBody cs ++ '"' :: rest)) '\\'
              (serStrBody cs ++ '"' :: rest) rfl, ih f hf']
        rfl
      · by_cases h3 : c = '\n'
        · subst h3
          rw [show escapeChar '\n' ++ (serStrBody cs ++ '"' :: rest) =
              '\\' :: ('n' :: (serStrBody cs ++ '"' :: rest)) from rfl]
          rw [parseStrBody_succ_esc f ('n' :: (serStrBody cs ++ '"' :: rest)) '\n'
              (serStrBody cs ++ '"' :: rest) rfl, ih f hf']
          rfl
        · by_cases h4 : c = '\t'
          · subst h4
            rw [show escapeChar '\t' ++ (serStrBody cs ++ '"' :: rest) =
                '\\' :: ('t' :: (serStrBody cs ++ '"' :: rest)) from rfl]
            rw [parseStrBody_succ_esc f ('t' :: (serStrBody cs ++ '"' :: rest)) '\t'
              (serStrBody cs ++ '"' :: rest) rfl, ih f hf']
            rfl
          · by_cases h5 : c = '\x0d'
            · subst h5
              rw [show escapeChar '\x0d' ++ (serStrBody cs ++ '"' :: rest) =
                  '\\' :: ('r' :: (serStrBody cs ++ '"' :: rest)) from rfl]
              rw [parseStrBody_succ_esc f ('r' :: (serStrBody cs ++ '"' :: rest)) '\x0d'
              (serStrBody cs ++ '"' :: rest) rfl, ih f hf']
              rfl
            · by_cases h6 : c.toNat = 8
              · have hc : c = '\x08' := by rw [← char_ofNat_toNat c, h6]
                subst hc
                rw [show escapeChar '\x08' ++ (serStrBody cs ++ '"' :: rest) =
                    '\\' :: ('b' :: (serStrBody cs ++ '"' :: rest)) from rfl]
                rw [parseStrBody_succ_esc f ('b' :: (serStrBody cs ++ '"' :: rest)) '\x08'
              (serStrBody cs ++ '"' :: rest) rfl, ih f hf']
                rfl
              · by_cases h7 : c.toNat = 12
                · have hc : c = '\x0c' := by rw [← char_ofNat_toNat c, h7]
                  subst hc
                  rw [show escapeChar '\x0c' ++ (serStrBody cs ++ '"' :: rest) =
                      '\\' :: ('f' :: (serStrBody cs ++ '"' :: rest)) from rfl]
                  rw [parseStrBody_succ_esc f ('f' :: (serStrBody cs ++ '"' :: rest)) '\x0c'
              (serStrBody cs ++ '"' :: rest) rfl, ih f hf']
                  rfl
                · have hesc : escapeChar c =
                      if c.toNat < 0x20 then '\\' :: 'u' :: toHex4 c.toNat
                      else if c.toNat < 0x7F then [c]
                      else if c.toNat < 0x10000 then '\\' :: 'u' :: toHex4 c.toNat
                      else
                        '\\' :: 'u' :: toHex4 (0xD800 + (c.toNat - 0x10000) / 0x400) ++
                        '\\' :: 'u' :: toHex4 (0xDC00 + (c.toNat - 0x10000) % 0x400) := by
                    unfold escapeChar
                    rw [if_neg h1, if_neg h2, if_neg h3, if_neg h4, if_neg h5,
                      if_neg (fun he => h6 (by rw [he]; rfl)),
                      if_neg (fun he => h7 (by rw [he]; rfl))]
                  by_cases h8 : c.toNat < 0x20
                  · rw [hesc, if_pos h8]
                    have hx : toHex4 c.toNat ++ (serStrBody cs ++ '"' :: rest) =
                        toHexDigitChar (c.toNat / 4096 % 16) ::
                        toHexDigitChar (c.toNat / 256 % 16) ::
                        toHexDigitChar (c.toNat / 16 % 16) ::
                        toHexDigitChar (c.toNat % 16) ::
                        (serStrBody cs ++ '"' :: rest) := by
                      simp [toHex4]
                    have hpe : parseEscape
                        ('u' :: (toHex4 c.toNat ++ (serStrBody cs ++ '"' :: rest))) =
                        some (c, serStrBody cs ++ '"' :: rest) := by
                      rw [parseEscape_u, hx,
                        parseU_step _ _ _ _ _ _ (parseHex4_toHex4 _ (by omega)),
                        if_neg (by omega), if_neg (by omega), char_ofNat_toNat]
                    rw [show ('\\' :: 'u' :: toHex4 c.toNat) ++ (serStrBody cs ++ '"' :: rest) =
                        '\\' :: ('u' :: (toHex4 c.toNat ++ (serStrBody cs ++ '"' :: rest)))
                        from by simp]
                    rw [parseStrBody_succ_esc f _ _ _ hpe, ih f hf']
                    rfl
                  · by_cases h9 : c.toNat < 0x7F
                    · rw [hesc, if_neg h8, if_pos h9]
                      show parseStrBody (f + 1) (c :: (serStrBody cs ++ '"' :: rest)) = _
                      rw [parseStrBody_succ, if_neg h1, if_neg h2, if_neg h8, ih f hf']
                      rfl
                    · by_cases h10 : c.toNat < 0x10000
                      · have hval := char_valid_toNat c
                        have hrange : c.toNat < 0xD800 ∨ 0xDFFF < c.toNat := by
                          unfold Nat.isValidChar at hval
                          omega
                        rw [hesc, if_neg h8, if_neg h9, if_pos h10]
                        have hx : toHex4 c.toNat ++ (serStrBody cs ++ '"' :: rest) =
                            toHexDigitChar (c.toNat / 4096 % 16) ::
                            toHexDigitChar (c.toNat / 256 % 16) ::
                            toHexDigitChar (c.toNat / 16 % 16) ::
                            toHexDigitChar (c.toNat % 16) ::
                            (serStrBody cs ++ '"' :: rest) := by
                          simp [toHex4]
                        have hpe : parseEscape
                            ('u' :: (toHex4 c.toNat ++ (serStrBody cs ++ '"' :: rest))) =
                            some (c, serStrBody cs ++ '"' :: rest) := by
                          rw [parseEscape_u, hx,
                            parseU_step _ _ _ _ _ _ (parseHex4_toHex4 _ (by omega)),
                            if_neg (by omega), if_neg (by omega), char_ofNat_toNat]
                        rw [show ('\\' :: 'u' :: toHex4 c.toNat) ++
                            (serStrBody cs ++ '"' :: rest) =
                            '\\' :: ('u' :: (toHex4 c.toNat ++ (serStrBody cs ++ '"' :: rest)))
                            from by simp]
                        rw [parseStrBody_succ_esc f _ _ _ hpe, ih f hf']
                        rfl
                      · have hval := char_valid_toNat c
                        have hmax : c.toNat < 0x110000 := by
                          unfold Nat.isValidChar at hval
                          omega
                        rw [hesc, if_neg h8, if_neg h9, if_neg h10]
                        have hshape : ('\\' :: 'u' ::
                            toHex4 (0xD800 + (c.toNat - 0x10000) / 0x400) ++
                            '\\' :: 'u' :: toHex4 (0xDC00 + (c.toNat - 0x10000) % 0x400)) ++
                            (serStrBody cs ++ '"' :: rest) =
                            '\\' :: ('u' ::
                              (toHexDigitChar ((0xD800 + (c.toNat - 0x10000) / 0x400) / 4096 % 16) ::
                               toHexDigitChar ((0xD800 + (c.toNat - 0x10000) / 0x400) / 256 % 16) ::
                               toHexDigitChar ((0xD800 + (c.toNat - 0x10000) / 0x400) / 16 % 16) ::
                               toHexDigitChar ((0xD800 + (c.toNat - 0x10000) / 0x400) % 16) ::
                               ('\\' :: 'u' ::
                                 (toHexDigitChar ((0xDC00 + (c.toNat - 0x10000) % 0x400) / 4096 % 16) ::
                                  toHexDigitChar ((0xDC00 + (c.toNat - 0x10000) % 0x400) / 256 % 16) ::
                                  toHexDigitChar ((0xDC00 + (c.toNat - 0x10000) % 0x400) / 16 % 16) ::
                                  toHexDigitChar ((0xDC00 + (c.toNat - 0x10000) % 0x400) % 16) ::
                                  (serStrBody cs ++ '"' :: rest))))) := by
                          simp [toHex4]
                        rw [hshape]
                        have hlow : parseLowSurrogate (0xD800 + (c.toNat - 0x10000) / 0x400)
                            ('\\' :: 'u' ::
                              (toHexDigitChar ((0xDC00 + (c.toNat - 0x10000) % 0x400) / 4096 % 16) ::
                               toHexDigitChar ((0xDC00 + (c.toNat - 0x10000) % 0x400) / 256 % 16) ::
                               toHexDigitChar ((0xDC00 + (c.toNat - 0x10000) % 0x400) / 16 % 16) ::
                               toHexDigitChar ((0xDC00 + (c.toNat - 0x10000) % 0x400) % 16) ::
                               (serStrBody cs ++ '"' :: rest))) =
                            some (c, serStrBody cs ++ '"' :: rest) := by
                          rw [parseLowSurrogate_step _ _ _ _ _ _ _
                            (parseHex4_toHex4 _ (by omega))]
                          rw [if_pos (by constructor <;> omega)]
                          have hchar : 0x10000 +
                              (0xD800 + (c.toNat - 0x10000) / 0x400 - 0xD800) * 0x400 +
                              (0xDC00 + (c.toNat - 0x10000) % 0x400 - 0xDC00) = c.toNat := by
                            omega
                          rw [hchar, char_ofNat_toNat]
                        have hpe : parseEscape ('u' ::
                            (toHexDigitChar ((0xD800 + (c.toNat - 0x10000) / 0x400) / 4096 % 16) ::
                             toHexDigitChar ((0xD800 + (c.toNat - 0x10000) / 0x400) / 256 % 16) ::
                             toHexDigitChar ((0xD800 + (c.toNat - 0x10000) / 0x400) / 16 % 16) ::
                             toHexDigitChar ((0xD800 + (c.toNat - 0x10000) / 0x400) % 16) ::
                             ('\\' :: 'u' ::
                               (toHexDigitChar ((0xDC00 + (c.toNat - 0x10000) % 0x400) / 4096 % 16) ::
                                toHexDigitChar ((0xDC00 + (c.toNat - 0x10000) % 0x400) / 256 % 16) ::
                                toHexDigitChar ((0xDC00 + (c.toNat - 0x10000) % 0x400) / 16 % 16) ::
                                toHexDigitChar ((0xDC00 + (c.toNat - 0x10000) % 0x400) % 16) ::
                                (serStrBody cs ++ '"' :: rest))))) =
                            some (c, serStrBody cs ++ '"' :: rest) := by
                          rw [parseEscape_u,
                            parseU_step _ _ _ _ _ _ (parseHex4_toHex4 _ (by omega)),
                            if_pos (by constructor <;> omega)]
                          exact hlow
                        rw [parseStrBody_succ_esc f _ _ _ hpe, ih f hf']
                        rfl

theorem parseStr_serStr (s tail : List Char) :
    parseStr (serStrBody s ++ '"' :: tail) = some (s, tail) := by
  unfold parseStr
  refine parseStrBody_ser s tail _ ?_
  have h1 := serStrBody_length s
  have h2 : (serStrBody s ++ '"' :: tail).length = (serStrBody s).length + (tail.length + 1) := by
    simp
  omega

theorem isPrefixOf_append_self (l r : List Char) : l.isPrefixOf (l ++ r) = true := by
  induction l with
  | nil => simp [List.isPrefixOf]
  | cons x xs ih => simp [List.isPrefixOf, ih]

theorem expectLit_append (lit rest : List Char) : expectLit lit (lit ++ rest) = some rest := by
  unfold expectLit
  rw [if_pos (isPrefixOf_append_self lit rest), List.drop_left]

/-- Every serialized value starts with a non-blank character that is not a
closing bracket, closing brace or comma. -/
theorem serValue_head (ind : Nat) (v : JValue) :
    ∃ c cs, serValue ind v = c :: cs ∧ isJsonWs c = false ∧
      c ≠ ']' ∧ c ≠ '\x7d' ∧ c ≠ ',' := by
  cases v with
  | jnull => exact ⟨'n', _, rfl, by decide, by decide, by decide, by decide⟩
  | jbool b =>
    cases b
    · exact ⟨'f', _, rfl, by decide, by decide, by decide, by decide⟩
    · exact ⟨'t', _, rfl, by decide, by decide, by decide, by decide⟩
  | jnum i =>
    obtain ⟨d, ds, hshape, hd⟩ := serInt_head i
    refine ⟨d, ds, hshape, ?_, ?_, ?_, ?_⟩ <;>
      rcases hd with hd | hd
    · exact (digit_char_facts d hd).2.2.2.2.2.2.1
    · subst hd; decide
    · exact (digit_char_facts d hd).2.2.2.2.2.2.2.1
    · subst hd; decide
    · exact (digit_char_facts d hd).2.2.2.2.2.2.2.2.1
    · subst hd; decide
    · exact (digit_char_facts d hd).2.2.2.2.2.2.2.2.2
    · subst hd; decide
  | jstr s => exact ⟨'"', _, rfl, by decide, by decide, by decide, by decide⟩
  | jarr vs =>
    cases vs
    · exact ⟨'[', _, rfl, by decide, by decide, by decide, by decide⟩
    · exact ⟨'[', _, rfl, by decide, by decide, by decide, by decide⟩
  | jobj kvs =>
    cases kvs
    · exact ⟨'\x7b', _, rfl, by decide, by decide, by decide, by decide⟩
    · exact ⟨'\x7b', _, rfl, by decide, by decide, by decide, by decide⟩

theorem parseValue_head (f : Nat) (cs : List Char) (c : Char) (r : List Char)
    (h : skipWs cs = c :: r) :
    parseValue (f + 1) cs =
      (if c = '\x7b' then
        match skipWs r with
        | [] => none
        | c1 :: r1 =>
          if c1 = '\x7d' then some (JValue.jobj [], r1)
          else (parseMembers f (c1 :: r1)).map (fun p => (JValue.jobj p.1, p.2))
      else if c = '[' then
        match skipWs r with
        | [] => none
        | c1 :: r1 =>
          if c1 = ']' then some (JValue.jarr [], r1)
          else (parseElems f (c1 :: r1)).map (fun p => (JValue.jarr p.1, p.2))
      else if c = '"' then
        (parseStr r).map (fun p => (JValue.jstr p.1, p.2))
      else if c = 't' then
        (expectLit "rue".data r).map (fun r2 => (JValue.jbool true, r2))
      else if c = 'f' then
        (expectLit "alse".data r).map (fun r2 => (JValue.jbool false, r2))
      else if c = 'n' then
        (expectLit "ull".data r).map (fun r2 => (JValue.jnull, r2))
      else if c = '-' ∨ isAsciiDigit c then
        (parseNumLit (c :: r)).map (fun p => (JValue.jnum p.1, p.2))
      else none) := by
  have hv : parseValue (f + 1) cs =
      match skipWs cs with
      | [] => none
      | c :: r =>
        if c = '\x7b' then
          match skipWs r with
          | [] => none
          | c1 :: r1 =>
            if c1 = '\x7d' then some (JValue.jobj [], r1)
            else (parseMembers f (c1 :: r1)).map (fun p => (JValue.jobj p.1, p.2))
        else if c = '[' then
          match skipWs r with
          | [] => none
          | c1 :: r1 =>
            if c1 = ']' then some (JValue.jarr [], r1)
            else (parseElems f (c1 :: r1)).map (fun p => (JValue.jarr p.1, p.2))
        else if c = '"' then
          (parseStr r).map (fun p => (JValue.jstr p.1, p.2))
        else if c = 't' then
          (expectLit "rue".data r).map (fun r2 => (JValue.jbool true, r2))
        else if c = 'f' then
          (expectLit "alse".data r).map (fun r2 => (JValue.jbool false, r2))
        else if c = 'n' then
          (expectLit "ull".data r).map (fun r2 => (JValue.jnull, r2))
        else if c = '-' ∨ isAsciiDigit c then
          (parseNumLit (c :: r)).map (fun p => (JValue.jnum p.1, p.2))
        else none := rfl
  rw [hv, h]

theorem parseMembers_succ (f : Nat) (c : Char) (r : List Char) :
    parseMembers (f + 1) (c :: r) =
      (if c = '"' then
        match parseStr r with
        | none => none
        | some p =>
          match skipWs p.2 with
          | [] => none
          | c2 :: r2 =>
            if c2 = ':' then
              match parseValue f r2 with
              | none => none
              | some q =>
                match skipWs q.2 with
                | [] => none
                | c4 :: r4 =>
                  if c4 = ',' then
                    (parseMembers f (skipWs r4)).map (fun w => ((p.1, q.1) :: w.1, w.2))
                  else if c4 = '\x7d' then some ([(p.1, q.1)], r4)
                  else none
            else none
      else none) := rfl

theorem parseElems_succ (f : Nat) (cs : List Char) :
    parseElems (f + 1) cs =
      (match parseValue f cs with
       | none => none
       | some q =>
         match skipWs q.2 with
         | [] => none
         | c :: r2 =>
           if c = ',' then
             (parseElems f (skipWs r2)).map (fun w => (q.1 :: w.1, w.2))
           else if c = ']' then some ([q.1], r2)
           else none) := rfl

theorem serElemsTail_cons (ind : Nat) (v : JValue) (vs : List JValue) :
    serElemsTail ind (v :: vs) =
      serValue ind v ++ (match vs with
        | [] => []
        | _ :: _ => ',' :: '\n' :: (spaces ind ++ serElemsTail ind vs)) := by
  cases vs <;> rfl

theorem serMembersTail_cons (ind : Nat) (k : List Char) (v : JValue)
    (kvs : List (List Char × JValue)) :
    serMembersTail ind ((k, v) :: kvs) =
      serStr k ++ ':' :: ' ' :: (serValue ind v ++ (match kvs with
        | [] => []
        | _ :: _ => ',' :: '\n' :: (spaces ind ++ serMembersTail ind kvs))) := by
  cases kvs <;> rfl

theorem numDelim_newline (x : List Char) : numDelim ('\n' :: x) :=
  ⟨by decide, by decide, by decide, by decide⟩

theorem numDelim_comma (x : List Char) : numDelim (',' :: x) :=
  ⟨by decide, by decide, by decide, by decide⟩

set_option maxHeartbeats 4000000 in
/-- Parsing inverts serialization: simultaneously for values, object member
lists and array element lists, by strong induction on the fuel measure. -/
theorem parse_ser_all (N : Nat) :
    (∀ v ind fuel rest, jfuel v ≤ N → jfuel v ≤ fuel → numDelim rest →
      parseValue fuel (serValue ind v ++ rest) = some (v, rest)) ∧
    (∀ kvs ind j fuel rest, jfuelMembers kvs ≤ N → kvs ≠ [] → jfuelMembers kvs ≤ fuel →
      parseMembers fuel
        (serMembersTail ind kvs ++ '\n' :: (spaces j ++ '\x7d' :: rest)) =
        some (kvs, rest)) ∧
    (∀ vs ind j fuel rest, jfuelElems vs ≤ N → vs ≠ [] → jfuelElems vs ≤ fuel →
      parseElems fuel
        (serElemsTail ind vs ++ '\n' :: (spaces j ++ ']' :: rest)) =
        some (vs, rest)) := by
  induction N using Nat.strong_induction_on with
  | _ N IH =>
    refine ⟨?_, ?_, ?_⟩
    · -- values
      intro v ind fuel rest hN hfuel hrest
      obtain ⟨f, rfl⟩ : ∃ f, fuel = f + 1 := ⟨fuel - 1, by have := jfuel_pos v; omega⟩
      cases v with
      | jnull =>
        have hs : skipWs (serValue ind JValue.jnull ++ rest) = 'n' :: ("ull".data ++ rest) :=
          skipWs_cons_of_not_ws 'n' ("ull".data ++ rest) (by decide)
        rw [parseValue_head f _ _ _ hs, if_neg (by decide), if_neg (by decide),
          if_neg (by decide), if_neg (by decide), if_neg (by decide), if_pos rfl,
          expectLit_append]
        rfl
      | jbool b =>
        cases b with
        | false =>
          have hs : skipWs (serValue ind (JValue.jbool false) ++ rest) =
              'f' :: ("alse".data ++ rest) :=
            skipWs_cons_of_not_ws 'f' ("alse".data ++ rest) (by decide)
          rw [parseValue_head f _ _ _ hs, if_neg (by decide), if_neg (by decide),
            if_neg (by decide), if_neg (by decide), if_pos rfl, expectLit_append]
          rfl
        | true =>
          have hs : skipWs (serValue ind (JValue.jbool true) ++ rest) =
              't' :: ("rue".data ++ rest) :=
            skipWs_cons_of_not_ws 't' ("rue".data ++ rest) (by decide)
          rw [parseValue_head f _ _ _ hs, if_neg (by decide), if_neg (by decide),
            if_neg (by decide), if_pos rfl, expectLit_append]
          rfl
      | jnum i =>
        obtain ⟨d, ds, hshape, hd⟩ := serInt_head i
        have hfacts : isJsonWs d = false ∧ ¬d = '\x7b' ∧ ¬d = '[' ∧ ¬d = '"' ∧
            ¬d = 't' ∧ ¬d = 'f' ∧ ¬d = 'n' := by
          rcases hd with hd | hd
          · obtain ⟨a1, a2, a3, a4, a5, a6, a7, -, -, -⟩ := digit_char_facts d hd
            exact ⟨a7, a1, a2, a3, a4, a5, a6⟩
          · subst hd
            exact ⟨by decide, by decide, by decide, by decide, by decide, by decide, by decide⟩
        have harg : serValue ind (JValue.jnum i) ++ rest = d :: (ds ++ rest) := by
          show serInt i ++ rest = _
          rw [hshape, List.cons_append]
        have hs : skipWs (serValue ind (JValue.jnum i) ++ rest) = d :: (ds ++ rest) := by
          rw [harg]
          exact skipWs_cons_of_not_ws _ _ hfacts.1
        rw [parseValue_head f _ _ _ hs, if_neg hfacts.2.1, if_neg hfacts.2.2.1,
          if_neg hfacts.2.2.2.1, if_neg hfacts.2.2.2.2.1, if_neg hfacts.2.2.2.2.2.1,
          if_neg hfacts.2.2.2.2.2.2, if_pos (Or.symm hd)]
        have hback : (d :: (ds ++ rest) : List Char) = serInt i ++ rest := by
          rw [hshape, List.cons_append]
        rw [hback, parseNumLit_serInt i rest hrest]
        rfl
      | jstr s =>
        have harg : serValue ind (JValue.jstr s) ++ rest =
            '"' :: (serStrBody s ++ '"' :: rest) := by
          show ('"' :: (serStrBody s ++ ['"'])) ++ rest = _
          simp
        have hs : skipWs (serValue ind (JValue.jstr s) ++ rest) =
            '"' :: (serStrBody s ++ '"' :: rest) := by
          rw [harg]
          exact skipWs_cons_of_not_ws _ _ (by decide)
        rw [parseValue_head f _ _ _ hs, if_neg (by decide), if_neg (by decide), if_pos rfl,
          parseStr_serStr]
        rfl
      | jarr vs =>
        cases vs with
        | nil =>
          have hs : skipWs (serValue ind (JValue.jarr []) ++ rest) = '[' :: (']' :: rest) :=
            skipWs_cons_of_not_ws '[' (']' :: rest) (by decide)
          rw [parseValue_head f _ _ _ hs, if_neg (by decide), if_pos rfl,
            show skipWs (']' :: rest) = ']' :: rest from
              skipWs_cons_of_not_ws ']' rest (by decide)]
          show (if (']' : Char) = ']' then some (JValue.jarr [], rest)
                else (parseElems f (']' :: rest)).map (fun p => (JValue.jarr p.1, p.2))) =
              some (JValue.jarr [], rest)
          rw [if_pos rfl]
        | cons v1 vs1 =>
          obtain ⟨c0, cs0, hhead, hws0, hne1, -, -⟩ := serValue_head (ind + 2) v1
          have harg : serValue ind (JValue.jarr (v1 :: vs1)) ++ rest =
              '[' :: ('\n' :: (spaces (ind + 2) ++
                (serElemsTail (ind + 2) (v1 :: vs1) ++
                  ('\n' :: (spaces ind ++ (']' :: rest)))))) := by
            show ('[' :: '\n' :: (spaces (ind + 2) ++ serElemsTail (ind + 2) (v1 :: vs1) ++
              '\n' :: (spaces ind ++ [']']))) ++ rest = _
            simp
          obtain ⟨T, hT⟩ : ∃ T, serElemsTail (ind + 2) (v1 :: vs1) =
              serValue (ind + 2) v1 ++ T := ⟨_, serElemsTail_cons _ _ _⟩
          obtain ⟨Y, hY⟩ : ∃ Y, serElemsTail (ind + 2) (v1 :: vs1) ++
              ('\n' :: (spaces ind ++ (']' :: rest))) = c0 :: Y :=
            ⟨cs0 ++ (T ++ ('\n' :: (spaces ind ++ (']' :: rest)))), by
              rw [hT, hhead]
              simp⟩
          have hs : skipWs (serValue ind (JValue.jarr (v1 :: vs1)) ++ rest) =
              '[' :: ('\n' :: (spaces (ind + 2) ++
                (serElemsTail (ind + 2) (v1 :: vs1) ++
                  ('\n' :: (spaces ind ++ (']' :: rest)))))) := by
            rw [harg]
            exact skipWs_cons_of_not_ws _ _ (by decide)
          rw [parseValue_head f _ _ _ hs, if_neg (by decide), if_pos rfl]
          have hsk2 : skipWs ('\n' :: (spaces (ind + 2) ++
              (serElemsTail (ind + 2) (v1 :: vs1) ++
                ('\n' :: (spaces ind ++ (']' :: rest)))))) = c0 :: Y := by
            rw [skipWs_newline, skipWs_spaces_append, hY]
            exact skipWs_cons_of_not_ws _ _ hws0
          rw [hsk2]
          show (if c0 = ']' then some (JValue.jarr [], Y)
                else (parseElems f (c0 :: Y)).map (fun p => (JValue.jarr p.1, p.2))) =
              some (JValue.jarr (v1 :: vs1), rest)
          rw [if_neg hne1, ← hY]
          have hjf : jfuel (JValue.jarr (v1 :: vs1)) = 1 + jfuelElems (v1 :: vs1) := rfl
          rw [(IH (jfuelElems (v1 :: vs1)) (by omega)).2.2 (v1 :: vs1) (ind + 2) ind f rest
            le_rfl (by simp) (by omega)]
          rfl
      | jobj kvs =>
        cases kvs with
        | nil =>
          have hs : skipWs (serValue ind (JValue.jobj []) ++ rest) =
              '\x7b' :: ('\x7d' :: rest) :=
            skipWs_cons_of_not_ws '\x7b' ('\x7d' :: rest) (by decide)
          rw [parseValue_head f _ _ _ hs, if_pos rfl,
            show skipWs ('\x7d' :: rest) = '\x7d' :: rest from
              skipWs_cons_of_not_ws '\x7d' rest (by decide)]
          show (if ('\x7d' : Char) = '\x7d' then some (JValue.jobj [], rest)
                else (parseMembers f ('\x7d' :: rest)).map (fun p => (JValue.jobj p.1, p.2))) =
              some (JValue.jobj [], rest)
          rw [if_pos rfl]
        | cons m1 ms1 =>
          obtain ⟨k1, v1⟩ := m1
          have harg : serValue ind (JValue.jobj ((k1, v1) :: ms1)) ++ rest =
              '\x7b' :: ('\n' :: (spaces (ind + 2) ++
                (serMembersTail (ind + 2) ((k1, v1) :: ms1) ++
                  ('\n' :: (spaces ind ++ ('\x7d' :: rest)))))) := by
            show ('\x7b' :: '\n' :: (spaces (ind + 2) ++
              serMembersTail (ind + 2) ((k1, v1) :: ms1) ++
              '\n' :: (spaces ind ++ ['\x7d']))) ++ rest = _
            simp
          obtain ⟨T, hT⟩ : ∃ T, serMembersTail (ind + 2) ((k1, v1) :: ms1) =
              serStr k1 ++ ':' :: ' ' :: (serValue (ind + 2) v1 ++ T) :=
            ⟨_, serMembersTail_cons _ _ _ _⟩
          obtain ⟨Y, hY⟩ : ∃ Y, serMembersTail (ind + 2) ((k1, v1) :: ms1) ++
              ('\n' :: (spaces ind ++ ('\x7d' :: rest))) = '"' :: Y :=
            ⟨serStrBody k1 ++ ('"' :: (':' :: (' ' :: (serValue (ind + 2) v1 ++
                (T ++ ('\n' :: (spaces ind ++ ('\x7d' :: rest)))))))), by
              rw [hT, show serStr k1 = '"' :: (serStrBody k1 ++ ['"']) from rfl]
              simp⟩
          have hs : skipWs (serValue ind (JValue.jobj ((k1, v1) :: ms1)) ++ rest) =
              '\x7b' :: ('\n' :: (spaces (ind + 2) ++
                (serMembersTail (ind + 2) ((k1, v1) :: ms1) ++
                  ('\n' :: (spaces ind ++ ('\x7d' :: rest)))))) := by
            rw [harg]
            exact skipWs_cons_of_not_ws _ _ (by decide)
          rw [parseValue_head f _ _ _ hs, if_pos rfl]
          have hsk2 : skipWs ('\n' :: (spaces (ind + 2) ++
              (serMembersTail (ind + 2) ((k1, v1) :: ms1) ++
                ('\n' :: (spaces ind ++ ('\x7d' :: rest)))))) = '"' :: Y := by
            rw [skipWs_newline, skipWs_spaces_append, hY]
            exact skipWs_cons_of_not_ws _ _ (by decide)
          rw [hsk2]
          show (if ('"' : Char) = '\x7d' then some (JValue.jobj [], Y)
                else (parseMembers f ('"' :: Y)).map (fun p => (JValue.jobj p.1, p.2))) =
              some (JValue.jobj ((k1, v1) :: ms1), rest)
          rw [if_neg (by decide), ← hY]
          have hjf : jfuel (JValue.jobj ((k1, v1) :: ms1)) =
              1 + jfuelMembers ((k1, v1) :: ms1) := rfl
          rw [(IH (jfuelMembers ((k1, v1) :: ms1)) (by omega)).2.1 ((k1, v1) :: ms1)
            (ind + 2) ind f rest le_rfl (by simp) (by omega)]
          rfl
    · -- object members
      intro kvs ind j fuel rest hN hne hfuel
      rcases kvs with _ | ⟨⟨k, v⟩, kvs'⟩
      · exact absurd rfl hne
      · have hM : jfuelMembers ((k, v) :: kvs') = 1 + jfuel v + jfuelMembers kvs' := rfl
        obtain ⟨f, rfl⟩ : ∃ f, fuel = f + 1 := ⟨fuel - 1, by omega⟩
        have hvpos := jfuel_pos v
        cases kvs' with
        | nil =>
          have harg : serMembersTail ind [(k, v)] ++
              ('\n' :: (spaces j ++ '\x7d' :: rest)) =
              '"' :: (serStrBody k ++ '"' :: (':' :: (' ' :: (serValue ind v ++
                ('\n' :: (spaces j ++ '\x7d' :: rest)))))) := by
            have hE : serMembersTail ind [(k, v)] =
                serStr k ++ ':' :: ' ' :: (serValue ind v ++ []) := rfl
            rw [hE, show serStr k = '"' :: (serStrBody k ++ ['"']) from rfl]
            simp
          rw [harg, parseMembers_succ, if_pos rfl, parseStr_serStr]
          show (match skipWs (':' :: (' ' :: (serValue ind v ++
                  ('\n' :: (spaces j ++ '\x7d' :: rest))))) with
                | [] => none
                | c2 :: r2 =>
                  if c2 = ':' then
                    match parseValue f r2 with
                    | none => none
                    | some q =>
                      match skipWs q.2 with
                      | [] => none
                      | c4 :: r4 =>
                        if c4 = ',' then
                          (parseMembers f (skipWs r4)).map (fun w => ((k, q.1) :: w.1, w.2))
                        else if c4 = '\x7d' then some ([(k, q.1)], r4)
                        else none
                  else none) = some ([(k, v)], rest)
          rw [show skipWs (':' :: (' ' :: (serValue ind v ++
              ('\n' :: (spaces j ++ '\x7d' :: rest))))) =
              ':' :: (' ' :: (serValue ind v ++ ('\n' :: (spaces j ++ '\x7d' :: rest)))) from
            skipWs_cons_of_not_ws _ _ (by decide)]
          show (if (':' : Char) = ':' then
                  match parseValue f (' ' :: (serValue ind v ++
                    ('\n' :: (spaces j ++ '\x7d' :: rest)))) with
                  | none => none
                  | some q =>
                    match skipWs q.2 with
                    | [] => none
                    | c4 :: r4 =>
                      if c4 = ',' then
                        (parseMembers f (skipWs r4)).map (fun w => ((k, q.1) :: w.1, w.2))
                      else if c4 = '\x7d' then some ([(k, q.1)], r4)
                      else none
                else none) = some ([(k, v)], rest)
          rw [if_pos rfl]
          have hpv : parseValue f (' ' :: (serValue ind v ++
              ('\n' :: (spaces j ++ '\x7d' :: rest)))) =
              some (v, '\n' :: (spaces j ++ '\x7d' :: rest)) := by
            rw [parseValue_skipWs]
            have hsk : skipWs (' ' :: (serValue ind v ++
                ('\n' :: (spaces j ++ '\x7d' :: rest)))) =
                serValue ind v ++ ('\n' :: (spaces j ++ '\x7d' :: rest)) := by
              obtain ⟨cv, cvs, hv1, hv2, -, -, -⟩ := serValue_head ind v
              rw [show skipWs (' ' :: (serValue ind v ++
                  ('\n' :: (spaces j ++ '\x7d' :: rest)))) =
                  skipWs (serValue ind v ++ ('\n' :: (spaces j ++ '\x7d' :: rest))) from by
                simp [skipWs, isJsonWs]]
              rw [hv1, List.cons_append]
              exact skipWs_cons_of_not_ws _ _ hv2
            rw [hsk]
            exact (IH (jfuel v) (by omega)).1 v ind f _ le_rfl (by omega) (numDelim_newline _)
          rw [hpv]
          show (match skipWs ('\n' :: (spaces j ++ '\x7d' :: rest)) with
                | [] => none
                | c4 :: r4 =>
                  if c4 = ',' then
                    (parseMembers f (skipWs r4)).map (fun w => ((k, v) :: w.1, w.2))
                  else if c4 = '\x7d' then some ([(k, v)], r4)
                  else none) = some ([(k, v)], rest)
          rw [show skipWs ('\n' :: (spaces j ++ '\x7d' :: rest)) = '\x7d' :: rest from by
            rw [skipWs_newline, skipWs_spaces_append]
            exact skipWs_cons_of_not_ws _ _ (by decide)]
          show (if ('\x7d' : Char) = ',' then
                  (parseMembers f (skipWs rest)).map (fun w => ((k, v) :: w.1, w.2))
                else if ('\x7d' : Char) = '\x7d' then some ([(k, v)], rest)
                else none) = some ([(k, v)], rest)
          rw [if_neg (by decide), if_pos rfl]
        | cons m2 ms2 =>
          have hM2 : jfuelMembers (m2 :: ms2) ≤ N ∧ 1 ≤ jfuelMembers (m2 :: ms2) := by
            obtain ⟨k2, v2⟩ := m2
            have h1 : jfuelMembers ((k2, v2) :: ms2) = 1 + jfuel v2 + jfuelMembers ms2 := rfl
            constructor <;> omega
          have harg : serMembersTail ind ((k, v) :: m2 :: ms2) ++
              ('\n' :: (spaces j ++ '\x7d' :: rest)) =
              '"' :: (serStrBody k ++ '"' :: (':' :: (' ' :: (serValue ind v ++
                (',' :: ('\n' :: (spaces ind ++ (serMembersTail ind (m2 :: ms2) ++
                  ('\n' :: (spaces j ++ '\x7d' :: rest)))))))))) := by
            have hE : serMembersTail ind ((k, v) :: m2 :: ms2) =
                serStr k ++ ':' :: ' ' :: (serValue ind v ++
                  (',' :: '\n' :: (spaces ind ++ serMembersTail ind (m2 :: ms2)))) := rfl
            rw [hE, show serStr k = '"' :: (serStrBody k ++ ['"']) from rfl]
            simp
          rw [harg, parseMembers_succ, if_pos rfl, parseStr_serStr]
          show (match skipWs (':' :: (' ' :: (serValue ind v ++
                  (',' :: ('\n' :: (spaces ind ++ (serMembersTail ind (m2 :: ms2) ++
                    ('\n' :: (spaces j ++ '\x7d' :: rest))))))))) with
                | [] => none
                | c2 :: r2 =>
                  if c2 = ':' then
                    match parseValue f r2 with
                    | none => none
                    | some q =>
                      match skipWs q.2 with
                      | [] => none
                      | c4 :: r4 =>
                        if c4 = ',' then
                          (parseMembers f (skipWs r4)).map (fun w => ((k, q.1) :: w.1, w.2))
                        else if c4 = '\x7d' then some ([(k, q.1)], r4)
                        else none
                  else none) = some ((k, v) :: m2 :: ms2, rest)
          rw [show skipWs (':' :: (' ' :: (serValue ind v ++
              (',' :: ('\n' :: (spaces ind ++ (serMembersTail ind (m2 :: ms2) ++
                ('\n' :: (spaces j ++ '\x7d' :: rest))))))))) =
              ':' :: (' ' :: (serValue ind v ++
                (',' :: ('\n' :: (spaces ind ++ (serMembersTail ind (m2 :: ms2) ++
                  ('\n' :: (spaces j ++ '\x7d' :: rest)))))))) from
            skipWs_cons_of_not_ws _ _ (by decide)]
          show (if (':' : Char) = ':' then
                  match parseValue f (' ' :: (serValue ind v ++
                    (',' :: ('\n' :: (spaces ind ++ (serMembersTail ind (m2 :: ms2) ++
                      ('\n' :: (spaces j ++ '\x7d' :: rest)))))))) with
                  | none => none
                  | some q =>
                    match skipWs q.2 with
                    | [] => none
                    | c4 :: r4 =>
                      if c4 = ',' then
                        (parseMembers f (skipWs r4)).map (fun w => ((k, q.1) :: w.1, w.2))
                      else if c4 = '\x7d' then some ([(k, q.1)], r4)
                      else none
                else none) = some ((k, v) :: m2 :: ms2, rest)
          rw [if_pos rfl]
          have hpv : parseValue f (' ' :: (serValue ind v ++
              (',' :: ('\n' :: (spaces ind ++ (serMembersTail ind (m2 :: ms2) ++
                ('\n' :: (spaces j ++ '\x7d' :: rest)))))))) =
              some (v, ',' :: ('\n' :: (spaces ind ++ (serMembersTail ind (m2 :: ms2) ++
                ('\n' :: (spaces j ++ '\x7d' :: rest)))))) := by
            rw [parseValue_skipWs]
            have hsk : skipWs (' ' :: (serValue ind v ++
                (',' :: ('\n' :: (spaces ind ++ (serMembersTail ind (m2 :: ms2) ++
                  ('\n' :: (spaces j ++ '\x7d' :: rest)))))))) =
                serValue ind v ++ (',' :: ('\n' :: (spaces ind ++
                  (serMembersTail ind (m2 :: ms2) ++
                    ('\n' :: (spaces j ++ '\x7d' :: rest)))))) := by
              obtain ⟨cv, cvs, hv1, hv2, -, -, -⟩ := serValue_head ind v
              rw [show skipWs (' ' :: (serValue ind v ++
                  (',' :: ('\n' :: (spaces ind ++ (serMembersTail ind (m2 :: ms2) ++
                    ('\n' :: (spaces j ++ '\x7d' :: rest)))))))) =
                  skipWs (serValue ind v ++ (',' :: ('\n' :: (spaces ind ++
                    (serMembersTail ind (m2 :: ms2) ++
                      ('\n' :: (spaces j ++ '\x7d' :: rest))))))) from by
                simp [skipWs, isJsonWs]]
              rw [hv1, List.cons_append]
              exact skipWs_cons_of_not_ws _ _ hv2
            rw [hsk]
            exact (IH (jfuel v) (by omega)).1 v ind f _ le_rfl (by omega) (numDelim_comma _)
          rw [hpv]
          show (match skipWs (',' :: ('\n' :: (spaces ind ++
                  (serMembersTail ind (m2 :: ms2) ++
                    ('\n' :: (spaces j ++ '\x7d' :: rest)))))) with
                | [] => none
                | c4 :: r4 =>
                  if c4 = ',' then
                    (parseMembers f (skipWs r4)).map (fun w => ((k, v) :: w.1, w.2))
                  else if c4 = '\x7d' then some ([(k, v)], r4)
                  else none) = some ((k, v) :: m2 :: ms2, rest)
          rw [show skipWs (',' :: ('\n' :: (spaces ind ++ (serMembersTail ind (m2 :: ms2) ++
              ('\n' :: (spaces j ++ '\x7d' :: rest)))))) =
              ',' :: ('\n' :: (spaces ind ++ (serMembersTail ind (m2 :: ms2) ++
                ('\n' :: (spaces j ++ '\x7d' :: rest))))) from
            skipWs_cons_of_not_ws _ _ (by decide)]
          show (if (',' : Char) = ',' then
                  (parseMembers f (skipWs ('\n' :: (spaces ind ++
                    (serMembersTail ind (m2 :: ms2) ++
                      ('\n' :: (spaces j ++ '\x7d' :: rest))))))).map
                    (fun w => ((k, v) :: w.1, w.2))
                else if (',' : Char) = '\x7d' then some ([(k, v)], '\n' :: (spaces ind ++
                  (serMembersTail ind (m2 :: ms2) ++ ('\n' :: (spaces j ++ '\x7d' :: rest)))))
                else none) = some ((k, v) :: m2 :: ms2, rest)
          rw [if_pos rfl]
          have hskm : skipWs ('\n' :: (spaces ind ++ (serMembersTail ind (m2 :: ms2) ++
              ('\n' :: (spaces j ++ '\x7d' :: rest))))) =
              serMembersTail ind (m2 :: ms2) ++ ('\n' :: (spaces j ++ '\x7d' :: rest)) := by
            rw [skipWs_newline, skipWs_spaces_append]
            obtain ⟨k2, v2⟩ := m2
            rw [serMembersTail_cons, show serStr k2 = '"' :: (serStrBody k2 ++ ['"']) from rfl]
            simp only [List.cons_append, List.append_assoc]
            exact skipWs_cons_of_not_ws _ _ (by decide)
          rw [hskm]
          rw [(IH (jfuelMembers (m2 :: ms2)) (by omega)).2.1 (m2 :: ms2) ind j f rest
            le_rfl (by simp) (by omega)]
          rfl
    · -- array elements
      intro vs ind j fuel rest hN hne hfuel
      rcases vs with _ | ⟨v1, vs'⟩
      · exact absurd rfl hne
      · have hM : jfuelElems (v1 :: vs') = 1 + jfuel v1 + jfuelElems vs' := rfl
        obtain ⟨f, rfl⟩ : ∃ f, fuel = f + 1 := ⟨fuel - 1, by omega⟩
        have hvpos := jfuel_pos v1
        cases vs' with
        | nil =>
          have harg : serElemsTail ind [v1] ++ ('\n' :: (spaces j ++ ']' :: rest)) =
              serValue ind v1 ++ ('\n' :: (spaces j ++ ']' :: rest)) := by
            have hE : serElemsTail ind [v1] = serValue ind v1 ++ [] := rfl
            rw [hE]
            simp
          rw [harg, parseElems_succ]
          have hpv : parseValue f (serValue ind v1 ++ ('\n' :: (spaces j ++ ']' :: rest))) =
              some (v1, '\n' :: (spaces j ++ ']' :: rest)) :=
            (IH (jfuel v1) (by omega)).1 v1 ind f _ le_rfl (by omega) (numDelim_newline _)
          rw [hpv]
          show (match skipWs ('\n' :: (spaces j ++ ']' :: rest)) with
                | [] => none
                | c :: r2 =>
                  if c = ',' then
                    (parseElems f (skipWs r2)).map (fun w => (v1 :: w.1, w.2))
                  else if c = ']' then some ([v1], r2)
                  else none) = some ([v1], rest)
          rw [show skipWs ('\n' :: (spaces j ++ ']' :: rest)) = ']' :: rest from by
            rw [skipWs_newline, skipWs_spaces_append]
            exact skipWs_cons_of_not_ws _ _ (by decide)]
          show (if (']' : Char) = ',' then
                  (parseElems f (skipWs rest)).map (fun w => (v1 :: w.1, w.2))
                else if (']' : Char) = ']' then some ([v1], rest)
                else none) = some ([v1], rest)
          rw [if_neg (by decide), if_pos rfl]
        | cons v2 vs2 =>
          have hM2 : jfuelElems (v2 :: vs2) = 1 + jfuel v2 + jfuelElems vs2 := rfl
          have hv2pos := jfuel_pos v2
          have harg : serElemsTail ind (v1 :: v2 :: vs2) ++
              ('\n' :: (spaces j ++ ']' :: rest)) =
              serValue ind v1 ++ (',' :: ('\n' :: (spaces ind ++
                (serElemsTail ind (v2 :: vs2) ++ ('\n' :: (spaces j ++ ']' :: rest)))))) := by
            have hE : serElemsTail ind (v1 :: v2 :: vs2) =
                serValue ind v1 ++
                  (',' :: '\n' :: (spaces ind ++ serElemsTail ind (v2 :: vs2))) := rfl
            rw [hE]
            simp
          rw [harg, parseElems_succ]
          have hpv : parseValue f (serValue ind v1 ++ (',' :: ('\n' :: (spaces ind ++
              (serElemsTail ind (v2 :: vs2) ++ ('\n' :: (spaces j ++ ']' :: rest))))))) =
              some (v1, ',' :: ('\n' :: (spaces ind ++
                (serElemsTail ind (v2 :: vs2) ++ ('\n' :: (spaces j ++ ']' :: rest)))))) :=
            (IH (jfuel v1) (by omega)).1 v1 ind f _ le_rfl (by omega) (numDelim_comma _)
          rw [hpv]
          show (match skipWs (',' :: ('\n' :: (spaces ind ++
                  (serElemsTail ind (v2 :: vs2) ++ ('\n' :: (spaces j ++ ']' :: rest)))))) with
                | [] => none
                | c :: r2 =>
                  if c = ',' then
                    (parseElems f (skipWs r2)).map (fun w => (v1 :: w.1, w.2))
                  else if c = ']' then some ([v1], r2)
                  else none) = some (v1 :: v2 :: vs2, rest)
          rw [show skipWs (',' :: ('\n' :: (spaces ind ++ (serElemsTail ind (v2 :: vs2) ++
              ('\n' :: (spaces j ++ ']' :: rest)))))) =
              ',' :: ('\n' :: (spaces ind ++ (serElemsTail ind (v2 :: vs2) ++
                ('\n' :: (spaces j ++ ']' :: rest))))) from
            skipWs_cons_of_not_ws _ _ (by decide)]
          show (if (',' : Char) = ',' then
                  (parseElems f (skipWs ('\n' :: (spaces ind ++
                    (serElemsTail ind (v2 :: vs2) ++
                      ('\n' :: (spaces j ++ ']' :: rest))))))).map
                    (fun w => (v1 :: w.1, w.2))
                else if (',' : Char) = ']' then some ([v1], '\n' :: (spaces ind ++
                  (serElemsTail ind (v2 :: vs2) ++ ('\n' :: (spaces j ++ ']' :: rest)))))
                else none) = some (v1 :: v2 :: vs2, rest)
          rw [if_pos rfl]
          have hske : skipWs ('\n' :: (spaces ind ++ (serElemsTail ind (v2 :: vs2) ++
              ('\n' :: (spaces j ++ ']' :: rest))))) =
              serElemsTail ind (v2 :: vs2) ++ ('\n' :: (spaces j ++ ']' :: rest)) := by
            rw [skipWs_newline, skipWs_spaces_append]
            obtain ⟨c2, cs2, hh2, hw2, -, -, -⟩ := serValue_head ind v2
            rw [serElemsTail_cons, hh2]
            simp only [List.cons_append, List.append_assoc]
            exact skipWs_cons_of_not_ws _ _ hw2
          rw [hske]
          rw [(IH (jfuelElems (v2 :: vs2)) (by omega)).2.2 (v2 :: vs2) ind j f rest
            le_rfl (by simp) (by omega)]
          rfl

set_option maxHeartbeats 1000000 in
/-- The parser fuel supplied by `jsonLoads` (input length + 1) covers the fuel
measure of any serialized value. -/
theorem jfuel_le_len (N : Nat) :
    (∀ v ind, jfuel v ≤ N → jfuel v ≤ (serValue ind v).length) ∧
    (∀ kvs ind, jfuelMembers kvs ≤ N →
      jfuelMembers kvs ≤ (serMembersTail ind kvs).length + 1) ∧
    (∀ vs ind, jfuelElems vs ≤ N →
      jfuelElems vs ≤ (serElemsTail ind vs).length + 1) := by
  induction N using Nat.strong_induction_on with
  | _ N IH =>
    refine ⟨?_, ?_, ?_⟩
    · intro v ind hN
      cases v with
      | jnull => simp [jfuel, serValue]
      | jbool b => cases b <;> simp [jfuel, serValue]
      | jnum i =>
        obtain ⟨d, ds, hshape, -⟩ := serInt_head i
        show jfuel (JValue.jnum i) ≤ (serInt i).length
        rw [hshape]
        simp [jfuel]
      | jstr s =>
        show jfuel (JValue.jstr s) ≤ (serStr s).length
        simp only [jfuel, serStr, List.length_cons, List.length_append]
        omega
      | jarr vs =>
        cases vs with
        | nil => simp [jfuel, jfuelElems, serValue]
        | cons v1 vs1 =>
          have hjf : jfuel (JValue.jarr (v1 :: vs1)) = 1 + jfuelElems (v1 :: vs1) := rfl
          have hE : jfuelElems (v1 :: vs1) ≤
              (serElemsTail (ind + 2) (v1 :: vs1)).length + 1 :=
            (IH (jfuelElems (v1 :: vs1)) (by omega)).2.2 (v1 :: vs1) (ind + 2) le_rfl
          have hlen : (serValue ind (JValue.jarr (v1 :: vs1))).length =
              (serElemsTail (ind + 2) (v1 :: vs1)).length + (2 * ind + 6) := by
            show ('[' :: '\n' :: (spaces (ind + 2) ++ serElemsTail (ind + 2) (v1 :: vs1) ++
              '\n' :: (spaces ind ++ [']']))).length = _
            simp only [List.length_cons, List.length_append, spaces, List.length_replicate,
              List.length_nil]
            omega
          omega
      | jobj kvs =>
        cases kvs with
        | nil => simp [jfuel, jfuelMembers, serValue]
        | cons m1 ms1 =>
          obtain ⟨k1, v1⟩ := m1
          have hjf : jfuel (JValue.jobj ((k1, v1) :: ms1)) =
              1 + jfuelMembers ((k1, v1) :: ms1) := rfl
          have hE : jfuelMembers ((k1, v1) :: ms1) ≤
              (serMembersTail (ind + 2) ((k1, v1) :: ms1)).length + 1 :=
            (IH (jfuelMembers ((k1, v1) :: ms1)) (by omega)).2.1 ((k1, v1) :: ms1)
              (ind + 2) le_rfl
          have hlen : (serValue ind (JValue.jobj ((k1, v1) :: ms1))).length =
              (serMembersTail (ind + 2) ((k1, v1) :: ms1)).length + (2 * ind + 6) := by
            show ('\x7b' :: '\n' :: (spaces (ind + 2) ++
              serMembersTail (ind + 2) ((k1, v1) :: ms1) ++
              '\n' :: (spaces ind ++ ['\x7d']))).length = _
            simp only [List.length_cons, List.length_append, spaces, List.length_replicate,
              List.length_nil]
            omega
          omega
    · intro kvs ind hN
      cases kvs with
      | nil => simp [jfuelMembers]
      | cons m ms =>
        obtain ⟨k, v⟩ := m
        have hM : jfuelMembers ((k, v) :: ms) = 1 + jfuel v + jfuelMembers ms := rfl
        have hvpos := jfuel_pos v
        have hv : jfuel v ≤ (serValue ind v).length :=
          (IH (jfuel v) (by omega)).1 v ind le_rfl
        have hks : 2 ≤ (serStr k).length := by
          simp only [serStr, List.length_cons, List.length_append, List.length_nil]
          omega
        cases ms with
        | nil =>
          have hlen : (serMembersTail ind [(k, v)]).length =
              (serStr k).length + 2 + (serValue ind v).length := by
            show (serStr k ++ ':' :: ' ' :: (serValue ind v ++ [])).length = _
            simp only [List.length_append, List.length_cons, List.length_nil]
            omega
          have hz : jfuelMembers ([] : List (List Char × JValue)) = 0 := rfl
          omega
        | cons m2 ms2 =>
          have hms : jfuelMembers (m2 :: ms2) ≤
              (serMembersTail ind (m2 :: ms2)).length + 1 := by
            refine (IH (jfuelMembers (m2 :: ms2)) ?_).2.1 (m2 :: ms2) ind le_rfl
            obtain ⟨k2, v2⟩ := m2
            have h2 : jfuelMembers ((k2, v2) :: ms2) =
                1 + jfuel v2 + jfuelMembers ms2 := rfl
            omega
          have hlen : (serMembersTail ind ((k, v) :: m2 :: ms2)).length =
              (serStr k).length + 2 + (serValue ind v).length + 2 + ind +
              (serMembersTail ind (m2 :: ms2)).length := by
            show (serStr k ++ ':' :: ' ' :: (serValue ind v ++
              (',' :: '\n' :: (spaces ind ++ serMembersTail ind (m2 :: ms2))))).length = _
            simp only [List.length_append, List.length_cons, spaces, List.length_replicate]
            omega
          omega
    · intro vs ind hN
      cases vs with
      | nil => simp [jfuelElems]
      | cons v1 vs1 =>
        have hM : jfuelElems (v1 :: vs1) = 1 + jfuel v1 + jfuelElems vs1 := rfl
        have hvpos := jfuel_pos v1
        have hv : jfuel v1 ≤ (serValue ind v1).length :=
          (IH (jfuel v1) (by omega)).1 v1 ind le_rfl
        cases vs1 with
        | nil =>
          have hlen : (serElemsTail ind [v1]).length = (serValue ind v1).length := by
            show (serValue ind v1 ++ []).length = _
            simp
          have hz : jfuelElems ([] : List JValue) = 0 := rfl
          omega
        | cons v2 vs2 =>
          have hvs : jfuelElems (v2 :: vs2) ≤ (serElemsTail ind (v2 :: vs2)).length + 1 := by
            refine (IH (jfuelElems (v2 :: vs2)) ?_).2.2 (v2 :: vs2) ind le_rfl
            have h2 : jfuelElems (v2 :: vs2) = 1 + jfuel v2 + jfuelElems vs2 := rfl
            have := jfuel_pos v2
            omega
          have hlen : (serElemsTail ind (v1 :: v2 :: vs2)).length =
              (serValue ind v1).length + 2 + ind +
              (serElemsTail ind (v2 :: vs2)).length := by
            show (serValue ind v1 ++
              (',' :: '\n' :: (spaces ind ++ serElemsTail ind (v2 :: vs2)))).length = _
            simp only [List.length_append, List.length_cons, spaces, List.length_replicate]
            omega
          omega

/-- `SitemapAgent._save_sitemap` (lines 218-259): the exact text written to
`sitemap.json` by `json.dump(sitemap, f, indent=2)`.  The brand-guide twin
(`_save_brand_guide`, lines 148-160) writes the same serialization to
`brand-guide.json`. -/
def save_sitemap_bytes (sitemap : JValue) : List Char := jsonDumps sitemap

/-- The read-back step of `SitemapAgent.edit_sitemap` (lines 206-211):
`json.load` of the file contents. -/
def edit_sitemap_read (file_contents : List Char) : Option JValue :=
  jsonLoads file_contents

/-- C9: persisting a document with `json.dump(..., indent=2)` and re-reading
it with `json.load` yields the original document (numbers embedded as
integers; the file returns exactly the written bytes). -/
theorem C9_persistence_roundtrip (v : JValue) :
    edit_sitemap_read (save_sitemap_bytes v) = some v := by
  have hlen : jfuel v ≤ (jsonDumps v).length :=
    (jfuel_le_len (jfuel v)).1 v 0 le_rfl
  have hp : parseValue ((jsonDumps v).length + 1) (serValue 0 v ++ []) = some (v, []) :=
    (parse_ser_all (jfuel v)).1 v 0 ((jsonDumps v).length + 1) [] le_rfl (by omega) trivial
  rw [List.append_nil] at hp
  show jsonLoads (jsonDumps v) = some v
  unfold jsonLoads
  rw [show ((jsonDumps v).length + 1) = ((serValue 0 v).length + 1) from rfl] at hp
  rw [show (jsonDumps v : List Char) = serValue 0 v from rfl, hp]
  rfl

/-- C7 witness: concrete brace-less response text. -/
theorem C7_braceless_default_witness :
    extract_json "no braces at all".data = none ∧
    generate_sitemap (ApiResult.ok "no braces at all".data) "Acme".data =
      ⟨default_sitemap "Acme".data, [default_sitemap "Acme".data]⟩ ∧
    generate_style_guide (ApiResult.ok "no braces at all".data) "Acme".data [] =
      Except.ok ⟨default_brand_guide, [default_brand_guide]⟩ :=
  C7_braceless_default "no braces at all".data "Acme".data (by decide) (by decide)

end AiCms
